import Mathlib

/-!
# node-protobuf: the native binding (`src/native.cpp`)

A shallow embedding of `NativeProtobuf` (constructor, `New`, `Serialize`, `Parse`,
`ParseWithUnknown`, `Info`) together with the properties of the codec that the
specification states about it.

The binding is glue between three parties:

* the protobuf library (`google::protobuf`): descriptor pool, message factory,
  wire parser and serializer.  It is not part of the repository; its API is the
  structure `Protobuf`, and the binding is embedded for an arbitrary such library;
* the repository's own `parse.h` / `serialize.h` (`ParsePart`, `ParsePartWithUnknown`,
  `SerializePart`), which are passed to the methods as functions;
* V8 / Nan argument marshalling: every method is embedded on its arguments after
  the conversions of its first lines (`ToObject`, `Utf8String`, `To<int32_t>`,
  `BooleanValue`).
-/

namespace NodeProtobuf

/-- Contents of a Node `Buffer`. -/
abbrev Bytes := List Nat

/-- State of a `google::protobuf::io::CodedInputStream` as far as the binding
touches it: the array it reads and the arguments of the `SetTotalBytesLimit` call,
`none` when the call was never made. -/
structure CodedInputStream where
  data : Bytes
  total_bytes_limit : Option (Int × Int) := none
deriving DecidableEq, Repr

/-- The API of the protobuf library used by `native.cpp`.  Pointers returned by the
library that may be `NULL` are `Option`s; non-const member functions return the
new state of the object they are called on. -/
structure Protobuf where
  /-- Type `FileDescriptorSet`. -/
  FileDescriptorSet : Type
  /-- Type `FileDescriptorProto`. -/
  FileDescriptorProto : Type
  /-- Type `const FileDescriptor *` (non-null). -/
  FileDescriptor : Type
  /-- Type `const Descriptor *` (non-null). -/
  Descriptor : Type
  /-- Type `DescriptorPool`. -/
  DescriptorPool : Type
  /-- Type `DynamicMessageFactory`. -/
  DynamicMessageFactory : Type
  /-- Type `google::protobuf::Message`. -/
  Message : Type
  /-- A default-constructed pool (the member `pool` before the constructor body). -/
  pool₀ : DescriptorPool
  /-- A default-constructed factory (the member `factory`). -/
  factory₀ : DynamicMessageFactory
  /-- Call `descriptors.ParseFromArray(data, length)` on a fresh set: `none` is `false`. -/
  ParseFromArray : Bytes → Option FileDescriptorSet
  /-- Call `descriptors->file_size()`. -/
  file_size : FileDescriptorSet → Nat
  /-- Call `descriptors->file(i)`. -/
  file : FileDescriptorSet → Nat → FileDescriptorProto
  /-- Call `pool.BuildFile(proto)`: the pool afterwards and the file, `none` for `NULL`. -/
  BuildFile : DescriptorPool → FileDescriptorProto → DescriptorPool × Option FileDescriptor
  /-- Call `f->message_type_count()`. -/
  message_type_count : FileDescriptor → Nat
  /-- Call `f->message_type(i)`. -/
  message_type : FileDescriptor → Nat → Descriptor
  /-- Call `d->full_name()`. -/
  full_name : Descriptor → String
  /-- Call `pool.FindMessageTypeByName(name)` (a const member): `none` for `NULL`. -/
  FindMessageTypeByName : DescriptorPool → String → Option Descriptor
  /-- Call `factory.GetPrototype(descriptor)->New()`: the factory afterwards and the
  fresh message. -/
  GetPrototypeNew : DynamicMessageFactory → Descriptor → DynamicMessageFactory × Message
  /-- Call `message->ParseFromCodedStream(&coded_stream)`: the returned flag and the
  message afterwards (whatever was parsed into it, also on failure). -/
  ParseFromCodedStream : Message → CodedInputStream → Bool × Message
  /-- Call `message->ByteSize()`. -/
  ByteSize : Message → Int
  /-- Call `message->SerializeToArray(buf, size)`: the returned flag and the buffer
  contents afterwards. -/
  SerializeToArray : Message → Int → Bool × Bytes

/-- The members of a `NativeProtobuf` object (`native.h`). -/
structure NativeProtobuf (L : Protobuf) where
  pool : L.DescriptorPool
  factory : L.DynamicMessageFactory
  preserve_int64 : Bool
  info : List String

/-- What a JavaScript caller observes of a call: the pending exception raised by
`Nan::ThrowError`, if any, and the value given to `info.GetReturnValue().Set`. -/
inductive ReturnValue (Object : Type) where
  /-- Value `Nan::Undefined()`. -/
  | Undefined
  /-- Value `Nan::Null()`. -/
  | Null
  /-- A Node `Buffer` with the given contents. -/
  | buffer (data : Bytes)
  /-- The object built by `ParsePart` / `ParsePartWithUnknown`. -/
  | object (o : Object)
  /-- A JavaScript array of strings. -/
  | array (items : List String)
deriving DecidableEq, Repr

/-- Outcome of one method call. -/
structure CallResult (Object : Type) where
  thrown : Option String
  returnValue : ReturnValue Object
deriving DecidableEq, Repr

/-! ## The constructor (native.cpp 7-21) -/

/-- Where the constructor stands after some iterations: either still running with
the members as they are, or stopped at `f->message_type_count()` with `f == NULL`
(undefined behaviour: the source does not test the result of `BuildFile`). -/
inductive CtorState (L : Protobuf) where
  | running (pool : L.DescriptorPool) (info : List String)
  | nullDereference (pool : L.DescriptorPool) (info : List String) (file_index : Nat)

/-- Inner loop, lines 12-17: `info.push_back(f->message_type(i)->full_name())`
for `i = 0 .. f->message_type_count() - 1`. -/
def pushMessageTypes (L : Protobuf) (f : L.FileDescriptor) (info : List String) : List String :=
  (List.range (L.message_type_count f)).foldl
    (fun info i => info ++ [L.full_name (L.message_type f i)]) info

/-- One iteration of the outer loop, lines 11-17. -/
def ctorStep (L : Protobuf) (descriptors : L.FileDescriptorSet) (st : CtorState L) (i : Nat) :
    CtorState L :=
  match st with
  | .nullDereference pool info k => .nullDereference pool info k
  | .running pool info =>
    match L.BuildFile pool (L.file descriptors i) with
    | (pool1, none) => .nullDereference pool1 info i
    | (pool1, some f) => .running pool1 (pushMessageTypes L f info)

/-- Outer loop, lines 10-18: `for (int i = 0; i < descriptors->file_size(); i++)`. -/
def ctorLoop (L : Protobuf) (descriptors : L.FileDescriptorSet) : CtorState L :=
  (List.range (L.file_size descriptors)).foldl (ctorStep L descriptors) (.running L.pool₀ [])

/-- Result of running the constructor. -/
inductive Constructed (L : Protobuf) where
  | object (self : NativeProtobuf L)
  | nullDereference (pool : L.DescriptorPool) (info : List String) (file_index : Nat)

/-- Constructor `NativeProtobuf::NativeProtobuf(FileDescriptorSet *descriptors,
bool preserve_int64)`. -/
def NativeProtobuf.ctor (L : Protobuf) (descriptors : L.FileDescriptorSet)
    (preserve_int64 : Bool) : Constructed L :=
  match ctorLoop L descriptors with
  | .running pool info =>
    .object { pool := pool, factory := L.factory₀, preserve_int64 := preserve_int64, info := info }
  | .nullDereference pool info k => .nullDereference pool info k

/-- Outcome of `new NativeProtobuf(buffer, preserve_int64)` from JavaScript. -/
inductive NewResult (L : Protobuf) where
  /-- `Nan::ThrowError(message)`; no object is created. -/
  | threw (message : String)
  /-- The object wrapped into `info.This()`. -/
  | wrapped (self : NativeProtobuf L)
  /-- The constructor dereferenced the `NULL` returned by `BuildFile`. -/
  | nullDereference (pool : L.DescriptorPool) (info : List String) (file_index : Nat)

/-- Method `NAN_METHOD(NativeProtobuf::New)`, lines 45-66; `buffer_data` is the
contents of `info[0]`, `preserve_int64` is `info[1]->BooleanValue(isolate)`. -/
def NativeProtobuf.New (L : Protobuf) (buffer_data : Bytes) (preserve_int64 : Bool) :
    NewResult L :=
  match L.ParseFromArray buffer_data with
  | none => .threw "Malformed descriptor"
  | some descriptors =>
    match NativeProtobuf.ctor L descriptors preserve_int64 with
    | .object self => .wrapped self
    | .nullDereference pool info k => .nullDereference pool info k

/-! ## Serialize (native.cpp 68-111) -/

/-- Method `NAN_METHOD(NativeProtobuf::Serialize)`.  `subj` is `info[0]->ToObject`,
`schema_name` the `std::string` made from `info[1]`; `SerializePart` (serialize.h)
returns its `int` and the message as it left it. -/
def NativeProtobuf.Serialize (L : Protobuf) {Object : Type}
    (SerializePart : L.Message → Object → Bool → Int × L.Message)
    (self : NativeProtobuf L) (subj : Object) (schema_name : String) :
    NativeProtobuf L × CallResult Object :=
  match L.FindMessageTypeByName self.pool schema_name with
  | none => (self, ⟨some ("Unknown schema name: " ++ schema_name), .Undefined⟩)
  | some descriptor =>
    let fm := L.GetPrototypeNew self.factory descriptor
    let self1 := { self with factory := fm.1 }
    let sp := SerializePart fm.2 subj self.preserve_int64
    if sp.1 < 0 then
      (self1, ⟨none, .Null⟩)
    else
      let size := L.ByteSize sp.2
      let r := L.SerializeToArray sp.2 size
      if !r.1 then
        (self1, ⟨some "Can't serialize", .Undefined⟩)
      else
        (self1, ⟨none, .buffer r.2⟩)

/-! ## Parse and ParseWithUnknown (native.cpp 113-227) -/

/-- The arguments of `parse` / `parseWithUnknown` after conversion. -/
structure ParseArgs where
  /-- Number of arguments, `info.Length()`. -/
  Length : Nat
  /-- Contents of the buffer `info[0]`. -/
  buffer_data : Bytes
  /-- The `std::string` made from `info[1]`. -/
  schema_name : String
  /-- Value `Nan::To<int32_t>(info[2]).FromMaybe(0)`. -/
  maxBytes : Int
  /-- Value `Nan::To<int32_t>(info[3]).FromMaybe(0)`. -/
  warnBytes : Int
  /-- Value `info[4]->BooleanValue(isolate)`; read only when `Length ≥ 5`. -/
  arg4 : Bool
deriving DecidableEq, Repr

/-- Conversion `static_cast<size_t>(x)` of an `int32_t` (64-bit `size_t`). -/
def static_cast_size_t (x : Int) : Nat := (x % 2 ^ 64).toNat

/-- Conversion of a `size_t` argument to the `int` parameter of
`SetTotalBytesLimit(int, int)` (two's complement, 32-bit `int`). -/
def size_t_to_int (n : Nat) : Int :=
  if n % 2 ^ 32 < 2 ^ 31 then (n % 2 ^ 32 : Nat) else (n % 2 ^ 32 : Nat) - 2 ^ 32

/-- The coded stream handed to the parser by `Parse`, lines 136-143. -/
def NativeProtobuf.Parse.coded_stream (info : ParseArgs) : CodedInputStream :=
  let coded_stream : CodedInputStream := { data := info.buffer_data }
  let max := static_cast_size_t info.maxBytes
  let warn := static_cast_size_t info.warnBytes
  if max ≠ 0 then
    { coded_stream with
      total_bytes_limit := some (size_t_to_int max, size_t_to_int (if warn ≠ 0 then warn else max)) }
  else coded_stream

/-- The flag `use_typed_array` of `Parse`, lines 149-155. -/
def NativeProtobuf.Parse.use_typed_array (info : ParseArgs) : Bool :=
  if info.Length < 5 then true else info.arg4

/-- Method `NAN_METHOD(NativeProtobuf::Parse)`; `ParsePart` is the function of parse.h. -/
def NativeProtobuf.Parse (L : Protobuf) {Object : Type}
    (ParsePart : L.Message → Bool → Bool → Object)
    (self : NativeProtobuf L) (info : ParseArgs) : NativeProtobuf L × CallResult Object :=
  match L.FindMessageTypeByName self.pool info.schema_name with
  | none => (self, ⟨some ("Unknown schema name: " ++ info.schema_name), .Null⟩)
  | some descriptor =>
    let fm := L.GetPrototypeNew self.factory descriptor
    let self1 := { self with factory := fm.1 }
    let parsed := L.ParseFromCodedStream fm.2 (NativeProtobuf.Parse.coded_stream info)
    let use_typed_array := NativeProtobuf.Parse.use_typed_array info
    if parsed.1 then
      (self1, ⟨none, .object (ParsePart parsed.2 self.preserve_int64 use_typed_array)⟩)
    else
      (self1, ⟨some "Malformed protocol buffer", .Null⟩)

/-- The coded stream handed to the parser by `ParseWithUnknown`, lines 194-203. -/
def NativeProtobuf.ParseWithUnknown.coded_stream (info : ParseArgs) : CodedInputStream :=
  let coded_stream : CodedInputStream := { data := info.buffer_data }
  let max := static_cast_size_t info.maxBytes
  let warn := static_cast_size_t info.warnBytes
  if max ≠ 0 then
    { coded_stream with
      total_bytes_limit := some (size_t_to_int max, size_t_to_int (if warn ≠ 0 then warn else max)) }
  else coded_stream

/-- The flag `use_typed_array` of `ParseWithUnknown`, lines 209-215. -/
def NativeProtobuf.ParseWithUnknown.use_typed_array (info : ParseArgs) : Bool :=
  if info.Length < 5 then true else info.arg4

/-- Method `NAN_METHOD(NativeProtobuf::ParseWithUnknown)`; `ParsePartWithUnknown` is the
function of parse.h. -/
def NativeProtobuf.ParseWithUnknown (L : Protobuf) {Object : Type}
    (ParsePartWithUnknown : L.Message → Bool → Bool → Object)
    (self : NativeProtobuf L) (info : ParseArgs) : NativeProtobuf L × CallResult Object :=
  match L.FindMessageTypeByName self.pool info.schema_name with
  | none => (self, ⟨some ("Unknown schema name: " ++ info.schema_name), .Null⟩)
  | some descriptor =>
    let fm := L.GetPrototypeNew self.factory descriptor
    let self1 := { self with factory := fm.1 }
    let parsed := L.ParseFromCodedStream fm.2 (NativeProtobuf.ParseWithUnknown.coded_stream info)
    let use_typed_array := NativeProtobuf.ParseWithUnknown.use_typed_array info
    if parsed.1 then
      (self1, ⟨none, .object (ParsePartWithUnknown parsed.2 self.preserve_int64 use_typed_array)⟩)
    else
      (self1, ⟨some "Malformed protocol buffer", .Null⟩)

/-! ## Info (native.cpp 229-239) -/

/-- Call `array->Set(i, value)` on a JavaScript array of strings: an index inside the
array overwrites, the index `length` appends (larger indices, which would leave
holes, do not occur in `Info`; they are modelled as appending). -/
def Array_Set (array : List String) (i : Nat) (value : String) : List String :=
  if i < array.length then array.set i value else array ++ [value]

/-- Method `NAN_METHOD(NativeProtobuf::Info)`: `self->info.at(i)` is copied to index `i`
for `i = 0 .. self->info.size() - 1`. -/
def NativeProtobuf.Info (L : Protobuf) {Object : Type} (self : NativeProtobuf L) :
    NativeProtobuf L × CallResult Object :=
  let array := (List.range self.info.length).foldl
    (fun array i => Array_Set array i (self.info.getD i "")) []
  (self, ⟨none, .array array⟩)

/-! ## A reference protobuf library

The protobuf library is not among the sources.  This section gives one instance of
`Protobuf`: the registry and the message handle as the specification describes them
(sections 3, 4.1 and 4.2), over a wire-format layer that stays a parameter
(`WireFormat`).  The theorems about `native.cpp` alone hold for every instance of
`Protobuf`; this one serves the statements that speak of nested types and of the
conversion engine, and the examples. -/

/-- Modelled from the spec: the semantic kind of a field (section 3, FieldDescriptor). -/
inductive SemanticKind where
  | int32 | int64 | uint32 | uint64 | sint32 | sint64 | fixed32 | fixed64
  | float | double | bool | string | bytes | enum | message
deriving DecidableEq, Repr

/-- Modelled from the spec: the wire kind of a field (section 3, FieldDescriptor). -/
inductive WireKind where
  | varint | fixed32 | fixed64 | lengthDelimited
deriving DecidableEq, Repr

/-- Modelled from the spec: the cardinality of a field (section 3, FieldDescriptor). -/
inductive Cardinality where
  | optional | required | repeated
deriving DecidableEq, Repr

/-- Modelled from the spec: a FieldDescriptor (section 3); `type_name` is the
nested-type reference of message and enum kinds, a fully-qualified name. -/
structure FieldDescriptor where
  number : Nat
  name : String
  kind : SemanticKind
  cardinality : Cardinality
  type_name : String := ""
deriving DecidableEq, Repr

/-- Modelled from the spec: a TypeDescriptor (section 3), identified by its
fully-qualified dotted name. -/
structure TypeDescriptor where
  full_name : String
  fields : List FieldDescriptor
deriving DecidableEq, Repr

instance : Inhabited TypeDescriptor := ⟨⟨"", []⟩⟩

/-- Modelled from the spec: a message declaration of a descriptor set, with the
declarations nested inside it (section 4.1, "including nested types"). -/
inductive DescriptorProto where
  | mk (name : String) (field : List FieldDescriptor) (nested_type : List DescriptorProto)

/-- Name of a declaration. -/
def DescriptorProto.name : DescriptorProto → String
  | .mk name _ _ => name

/-- Fields of a declaration. -/
def DescriptorProto.field : DescriptorProto → List FieldDescriptor
  | .mk _ field _ => field

/-- Modelled from the spec: one file of a descriptor set. -/
structure FileDescriptorProto where
  name : String
  package : String
  message_type : List DescriptorProto

/-- Modelled from the spec: a descriptor set, the ordered list of its files. -/
structure FileDescriptorSet where
  file : List FileDescriptorProto

/-- The fully-qualified name of `name` declared inside `scope`. -/
def qualify (scope name : String) : String :=
  if scope = "" then name else scope ++ "." ++ name

mutual
/-- Modelled from the spec: the TypeDescriptors a declaration gives rise to, itself
first and then its nested types, each under its fully-qualified name (4.1). -/
def DescriptorProto.declared (scope : String) : DescriptorProto → List TypeDescriptor
  | .mk name field nested_type =>
    ⟨qualify scope name, field⟩ :: DescriptorProto.declaredAll (qualify scope name) nested_type
/-- The TypeDescriptors of a list of declarations, in declaration order. -/
def DescriptorProto.declaredAll (scope : String) : List DescriptorProto → List TypeDescriptor
  | [] => []
  | d :: ds => d.declared scope ++ DescriptorProto.declaredAll scope ds
end

/-- Modelled from the spec: the Registry of 4.1 (the `DescriptorPool` of the protobuf
library, which is not among the sources): the TypeDescriptors registered so far. -/
abbrev Registry := List TypeDescriptor

/-- Modelled from the spec: `DescriptorPool::FindMessageTypeByName` (protobuf library,
not among the sources), the operation `lookup(name)` of 4.1. -/
def Registry.lookup (pool : Registry) (name : String) : Option TypeDescriptor :=
  pool.find? (fun t => t.full_name = name)

/-- A descriptor handed out by the registry: the TypeDescriptor and the registry its
nested-type references resolve in. -/
structure LinkedDescriptor where
  type : TypeDescriptor
  pool : Registry
deriving DecidableEq, Repr

/-- A file built by the registry: its top-level message types in declaration order. -/
structure BuiltFile where
  message_type : List LinkedDescriptor

/-- Modelled from the spec: `DescriptorPool::BuildFile` (protobuf library, not among
the sources), the operation `build` of 4.1 for one file.  Every declared message
type, nested ones included, is registered under its fully-qualified name; a file
that declares a name twice or a name that is already registered cannot be built
(the registry is keyed by name) and leaves the registry as it was. -/
def Registry.BuildFile (pool : Registry) (proto : FileDescriptorProto) :
    Registry × Option BuiltFile :=
  let types := DescriptorProto.declaredAll proto.package proto.message_type
  if (types.map (fun t => t.full_name)).Nodup ∧
      ∀ t ∈ types, pool.lookup t.full_name = none then
    let pool1 := pool ++ types
    (pool1, some ⟨proto.message_type.map
      (fun d => ⟨⟨qualify proto.package d.name, d.field⟩, pool1⟩)⟩)
  else (pool, none)

/-- Number of binary digits of `n` (at most `fuel`). -/
def bitLength : Nat → Nat → Nat
  | 0, _ => 0
  | fuel + 1, n => if n = 0 then 0 else bitLength fuel (n / 2) + 1

/-- Modelled from the spec: a native number of the host (section 3, "number"; the
JavaScript numbers that `SerializePart` reads and `ParsePart` builds): a finite
binary fraction `mantissa * 2 ^ exponent`, an infinity, or not-a-number.  The
numbers of the host are the values binary64 holds, in normal form
(`Native.isDouble`); the sign of zero is not modelled. -/
inductive Native where
  | finite (mantissa exponent : Int)
  | infinity (negative : Bool)
  | nan
deriving DecidableEq, Repr

/-- The normal form of `mantissa * 2 ^ exponent`: an odd mantissa, or zero with
exponent zero (at most `fuel` halvings). -/
def Native.normalize : Nat → Int → Int → Native
  | 0, m, e => if m = 0 then .finite 0 0 else .finite m e
  | fuel + 1, m, e =>
    if m = 0 then .finite 0 0
    else if m % 2 = 0 then Native.normalize fuel (m / 2) (e + 1)
    else .finite m e

/-- The native number that is the integer `n`. -/
def Native.ofInt (n : Int) : Native := Native.normalize n.natAbs n 0

instance (n : Nat) : OfNat Native n := ⟨Native.ofInt n⟩

/-- The integer a native number is converted to: its integral part (truncation
towards zero), and zero for an infinity and not-a-number. -/
def Native.toInt : Native → Int
  | .finite m e => if 0 ≤ e then m * 2 ^ e.toNat else Int.tdiv m (2 ^ (-e).toNat)
  | _ => 0

/-- Whether a native number is an integer, held in normal form. -/
def Native.isInteger (x : Native) : Bool := x = Native.ofInt x.toInt

/-- Number of binary digits of the magnitude of an integer. -/
def Native.bits (m : Int) : Nat := bitLength m.natAbs m.natAbs

/-- Rounding of a native number to the binary floating-point format with `precision`
significant bits, least exponent `minExp` of a unit in the last place and magnitudes
below `2 ^ maxBits`: to the nearest value, ties to the even one, to an infinity when
the magnitude is too large. -/
def Native.round (precision : Nat) (minExp maxBits : Int) : Native → Native
  | .finite m e =>
    if m = 0 then .finite 0 0
    else
      let ulp : Int := max (Native.bits m + e - precision) minExp
      if ulp ≤ e then
        if Native.bits m + e ≤ maxBits then Native.normalize m.natAbs m e
        else .infinity (decide (m < 0))
      else
        let shift := (ulp - e).toNat
        let q := m.natAbs / 2 ^ shift
        let r := m.natAbs % 2 ^ shift
        let q1 := if 2 * r > 2 ^ shift ∨ (2 * r = 2 ^ shift ∧ q % 2 = 1) then q + 1 else q
        if Native.bits q1 + ulp > maxBits then .infinity (decide (m < 0))
        else Native.normalize q1 (Int.sign m * q1) ulp
  | x => x

/-- The value a 32-bit float field holds after a native number is stored in it. -/
def Native.toFloat32 (x : Native) : Native := Native.round 24 (-149) 128 x

/-- The native number nearest to an integer: the integer rounded to binary64, which
is the integer itself when it has at most 53 significant bits. -/
def Native.ofIntRounded (n : Int) : Native := Native.round 53 (-1074) 1024 (Native.ofInt n)

/-- Whether a native number is a value of the host: a binary64 value in normal form. -/
def Native.isDouble (x : Native) : Bool := Native.round 53 (-1074) 1024 x = x

/-- Modelled from the spec: an UnknownFieldEntry (section 3). -/
structure UnknownFieldEntry where
  number : Nat
  wireKind : WireKind
  raw : Bytes
deriving DecidableEq, Repr

/-- Modelled from the spec: the value a message handle holds for a field (4.2).
Integer kinds and enums hold an integer, the kinds `float` and `double` a native
number; a message field holds the nested handle's fields and unknown entries; a
repeated field holds its elements in order. -/
inductive FieldValue where
  | integer (v : Int)
  | float (x : Native)
  | boolean (b : Bool)
  | string (s : String)
  | bytes (b : Bytes)
  | message (fields : List (Nat × FieldValue)) (unknown : List UnknownFieldEntry)
  | repeated (items : List FieldValue)

/-- Modelled from the spec: a message handle (4.2; `google::protobuf::Message`, not
among the sources) bound to a descriptor: the fields that have a value, keyed by
field number, in the order they were set, and the unknown entries met while parsing. -/
structure Message where
  descriptor : LinkedDescriptor
  fields : List (Nat × FieldValue)
  unknown : List UnknownFieldEntry

/-- The wire-format layer of the reference library, which the specification leaves
to "a lower layer" (section 1). -/
structure WireFormat where
  /-- Parsing a serialized descriptor set. -/
  ParseFromArray : Bytes → Option FileDescriptorSet
  /-- Parsing wire bytes into a message handle. -/
  ParseFromCodedStream : Message → CodedInputStream → Bool × Message
  /-- Serialized length of a message. -/
  ByteSize : Message → Int
  /-- Serializing a message handle. -/
  SerializeToArray : Message → Int → Bool × Bytes

/-- The reference library over a wire-format layer. -/
def referenceLibrary (W : WireFormat) : Protobuf where
  FileDescriptorSet := FileDescriptorSet
  FileDescriptorProto := FileDescriptorProto
  FileDescriptor := BuiltFile
  Descriptor := LinkedDescriptor
  DescriptorPool := Registry
  DynamicMessageFactory := List String
  Message := Message
  pool₀ := []
  factory₀ := []
  ParseFromArray := W.ParseFromArray
  file_size := fun s => s.file.length
  file := fun s i => s.file.getD i ⟨"", "", []⟩
  BuildFile := Registry.BuildFile
  message_type_count := fun f => f.message_type.length
  message_type := fun f i => f.message_type.getD i ⟨default, []⟩
  full_name := fun d => d.type.full_name
  FindMessageTypeByName := fun pool name => (pool.lookup name).map (fun t => ⟨t, pool⟩)
  GetPrototypeNew := fun factory d =>
    (if d.type.full_name ∈ factory then factory else factory ++ [d.type.full_name],
     ⟨d, [], []⟩)
  ParseFromCodedStream := W.ParseFromCodedStream
  ByteSize := W.ByteSize
  SerializeToArray := W.SerializeToArray

/-! ## The conversion engine (parse.h, serialize.h)

`ParsePart`, `ParsePartWithUnknown` and `SerializePart` are declared in `parse.h` and
`serialize.h`; their definitions are not among the sources, so they are modelled
from sections 3, 4.3 and 4.4 of the specification, over the reference library's
message handle. -/

/-- Modelled from the spec: a DynamicValue (section 3), the JavaScript value that
`SerializePart` reads and `ParsePart` builds.  A precision-preserving integer given
as an exact decimal string is held by the integer the string denotes; a packed
numeric buffer holds its elements and the kind that fixes their width and
signedness; the unknown-field entries have a variant of their own (section 9).  The
entries of a mapping are held in a list, but their order has no meaning (section 3):
structured values are compared with `DynamicValue.sameAs`. -/
inductive DynamicValue where
  | null
  | boolean (b : Bool)
  | number (x : Native)
  | decimal (n : Int)
  | string (s : String)
  | bytes (b : Bytes)
  | list (items : List DynamicValue)
  | mapping (entries : List (String × DynamicValue))
  | packed (kind : SemanticKind) (elements : List Native)
  | unknownFields (entries : List UnknownFieldEntry)

/-- The value a mapping holds under a key. -/
def lookupEntry (key : String) (entries : List (String × DynamicValue)) :
    Option DynamicValue :=
  match entries.find? (fun e => e.1 = key) with
  | some e => some e.2
  | none => none

mutual
/-- Modelled from the spec: equality of structured values (section 3): scalars,
buffers and lists are equal when they are the same, element by element; two
mappings are equal when they have the same number of entries and every entry of the
first has an entry of the second with its key and an equal value, whatever the order
of the entries (with unique keys, the second then has no other entries). -/
def DynamicValue.sameAs : DynamicValue → DynamicValue → Bool
  | .null, b => match b with
    | .null => true
    | _ => false
  | .boolean a, b => match b with
    | .boolean c => a == c
    | _ => false
  | .number a, b => match b with
    | .number c => a == c
    | _ => false
  | .decimal a, b => match b with
    | .decimal c => a == c
    | _ => false
  | .string a, b => match b with
    | .string c => a == c
    | _ => false
  | .bytes a, b => match b with
    | .bytes c => a == c
    | _ => false
  | .packed k a, b => match b with
    | .packed l c => k == l && a == c
    | _ => false
  | .unknownFields a, b => match b with
    | .unknownFields c => a == c
    | _ => false
  | .list xs, b => match b with
    | .list ys => DynamicValue.sameItems xs ys
    | _ => false
  | .mapping es, b => match b with
    | .mapping fs => es.length == fs.length && DynamicValue.sameEntries es fs
    | _ => false
/-- Equality of two lists of structured values, element by element. -/
def DynamicValue.sameItems : List DynamicValue → List DynamicValue → Bool
  | [], ys => ys.isEmpty
  | x :: xs, ys => match ys with
    | y :: rest => x.sameAs y && DynamicValue.sameItems xs rest
    | [] => false
/-- Whether every entry of the first list has an entry of the second with its key and
an equal value. -/
def DynamicValue.sameEntries :
    List (String × DynamicValue) → List (String × DynamicValue) → Bool
  | [], _ => true
  | (key, v) :: es, fs =>
    (match lookupEntry key fs with
     | some w => v.sameAs w
     | none => false) && DynamicValue.sameEntries es fs
end

/-- The value a message handle holds for a field number (`get(fieldNumber)` of 4.2). -/
def lookupField (number : Nat) (fields : List (Nat × FieldValue)) : Option FieldValue :=
  match fields.find? (fun e => e.1 = number) with
  | some e => some e.2
  | none => none

mutual
/-- Equality of the values two message handles hold for a field: scalars are equal
when they are the same, repeated fields element by element, nested messages when
they hold equal values for the same field numbers, whatever the order in which the
fields are held; unknown entries are not compared. -/
def FieldValue.sameAs : FieldValue → FieldValue → Bool
  | .integer a, b => match b with
    | .integer c => a == c
    | _ => false
  | .float a, b => match b with
    | .float c => a == c
    | _ => false
  | .boolean a, b => match b with
    | .boolean c => a == c
    | _ => false
  | .string a, b => match b with
    | .string c => a == c
    | _ => false
  | .bytes a, b => match b with
    | .bytes c => a == c
    | _ => false
  | .repeated xs, b => match b with
    | .repeated ys => FieldValue.sameItems xs ys
    | _ => false
  | .message fs _, b => match b with
    | .message gs _ => fs.length == gs.length && FieldValue.sameFields fs gs
    | _ => false
/-- Equality of the elements of two repeated fields, element by element. -/
def FieldValue.sameItems : List FieldValue → List FieldValue → Bool
  | [], ys => ys.isEmpty
  | x :: xs, ys => match ys with
    | y :: rest => x.sameAs y && FieldValue.sameItems xs rest
    | [] => false
/-- Whether every field of the first handle has an equal value in the second. -/
def FieldValue.sameFields : List (Nat × FieldValue) → List (Nat × FieldValue) → Bool
  | [], _ => true
  | (n, w) :: fs, gs =>
    (match lookupField n gs with
     | some w1 => w.sameAs w1
     | none => false) && FieldValue.sameFields fs gs
end

/-- Whether two message handles are bound to the same descriptor and hold equal
values for the same fields, whatever the order in which the fields are held. -/
def Message.sameAs (m m1 : Message) : Bool :=
  decide (m.descriptor = m1.descriptor) && m.fields.length == m1.fields.length &&
    FieldValue.sameFields m.fields m1.fields

/-- Modelled from the spec: the wire kind of each semantic kind (section 3). -/
def SemanticKind.wireKind : SemanticKind → WireKind
  | .int32 | .int64 | .uint32 | .uint64 | .sint32 | .sint64 | .bool | .enum => .varint
  | .fixed32 | .float => .fixed32
  | .fixed64 | .double => .fixed64
  | .string | .bytes | .message => .lengthDelimited

/-- The 64-bit integer kinds (4.3, "64-bit integer kinds"). -/
def SemanticKind.is64 : SemanticKind → Bool
  | .int64 | .uint64 | .sint64 | .fixed64 => true
  | _ => false

/-- The fixed-width numeric kinds (4.3): the numeric kinds of fixed wire width. -/
def SemanticKind.isFixedWidthNumeric (k : SemanticKind) : Bool :=
  k.wireKind = .fixed32 || k.wireKind = .fixed64

/-- The integers a field of an integer kind can hold; no integer for the other kinds. -/
def SemanticKind.inRange : SemanticKind → Int → Bool
  | .int32, n | .sint32, n | .enum, n => decide (-(2 : Int) ^ 31 ≤ n ∧ n < 2 ^ 31)
  | .uint32, n | .fixed32, n => decide (0 ≤ n ∧ n < 2 ^ 32)
  | .int64, n | .sint64, n => decide (-(2 : Int) ^ 63 ≤ n ∧ n < 2 ^ 63)
  | .uint64, n | .fixed64, n => decide (0 ≤ n ∧ n < 2 ^ 64)
  | _, _ => false

/-- Coercion of an integer to an integer kind: reduction into the kind's range
(two's complement for the signed kinds); other kinds take the number as it is. -/
def SemanticKind.coerceInt : SemanticKind → Int → Int
  | .int32, n | .sint32, n | .enum, n => (n + 2 ^ 31) % 2 ^ 32 - 2 ^ 31
  | .uint32, n | .fixed32, n => n % 2 ^ 32
  | .int64, n | .sint64, n => (n + 2 ^ 63) % 2 ^ 64 - 2 ^ 63
  | .uint64, n | .fixed64, n => n % 2 ^ 64
  | _, n => n

/-- Modelled from the spec: the field-kind constraint of the numeric kinds (4.2,
"value must satisfy the field's semantic kind"): whether a native number is a value
of the kind as it stands.  `double` holds every native number of the host, `float`
those a 32-bit float holds exactly, an integer kind the integers of its range. -/
def SemanticKind.holds (k : SemanticKind) (x : Native) : Bool :=
  x.isDouble &&
    match k with
    | .double => true
    | .float => x.toFloat32 = x
    | k => x.isInteger && k.inRange x.toInt

/-- Field of a type by name. -/
def TypeDescriptor.byName (T : TypeDescriptor) (name : String) : Option FieldDescriptor :=
  T.fields.find? (fun fd => fd.name = name)

/-- Field of a type by number. -/
def TypeDescriptor.byNumber (T : TypeDescriptor) (number : Nat) : Option FieldDescriptor :=
  T.fields.find? (fun fd => fd.number = number)

/-- Modelled from the spec: `set(fieldNumber, value)` of a message handle (4.2): the
value of a field that has one is replaced, a new field comes last. -/
def setField (number : Nat) (v : FieldValue) : List (Nat × FieldValue) → List (Nat × FieldValue)
  | [] => [(number, v)]
  | (n, w) :: rest => if n = number then (n, v) :: rest else (n, w) :: setField number v rest

/-- Modelled from the spec: `fieldsPresent()` of a message handle (4.2). -/
def fieldsPresent (fields : List (Nat × FieldValue)) : List Nat := fields.map (fun e => e.1)

/-- Modelled from the spec: coercion of a native number to a numeric kind (4.4, the
inverse of the scalar conversions of 4.3): an integer kind takes the integral part
reduced into its range, `float` the nearest 32-bit float, `double` the number as it
is; the other kinds take no number. -/
def coerceNumber (kind : SemanticKind) (x : Native) : Option FieldValue :=
  match kind with
  | .bool | .string | .bytes | .message => none
  | .float => some (.float x.toFloat32)
  | .double => some (.float x)
  | k => some (.integer (k.coerceInt x.toInt))

mutual
/-- Modelled from the spec: coercion of a structured value to the field `fd` (4.4);
`rep` tells whether a whole repeated field is expected rather than one value.
`none` when the value is absent (null), does not fit the field, or is a list or
buffer without elements (nothing is set then). -/
def coerce (pool : Registry) (preserve_int64 : Bool) (fd : FieldDescriptor) (rep : Bool) :
    DynamicValue → Option FieldValue
  | .null => none
  | .unknownFields _ => none
  | .boolean b => if !rep && fd.kind = .bool then some (.boolean b) else none
  | .number x => if rep then none else coerceNumber fd.kind x
  | .decimal n => if !rep && fd.kind.is64 then some (.integer (fd.kind.coerceInt n)) else none
  | .string s => if !rep && fd.kind = .string then some (.string s) else none
  | .bytes b => if !rep && fd.kind = .bytes then some (.bytes b) else none
  | .mapping entries =>
    if !rep && fd.kind = .message then
      match pool.lookup fd.type_name with
      | some T => some (.message (walkEntries pool preserve_int64 T entries []) [])
      | none => none
    else none
  | .list items =>
    if rep then
      match coerceItems pool preserve_int64 fd items with
      | [] => none
      | w :: ws => some (.repeated (w :: ws))
    else none
  | .packed _ elements =>
    if rep then
      match elements.filterMap (coerceNumber fd.kind) with
      | [] => none
      | w :: ws => some (.repeated (w :: ws))
    else none
/-- Modelled from the spec: a list populates a repeated field in list order (4.4);
elements that do not fit the field are left out. -/
def coerceItems (pool : Registry) (preserve_int64 : Bool) (fd : FieldDescriptor) :
    List DynamicValue → List FieldValue
  | [] => []
  | v :: vs =>
    match coerce pool preserve_int64 fd false v with
    | some w => w :: coerceItems pool preserve_int64 fd vs
    | none => coerceItems pool preserve_int64 fd vs
/-- Modelled from the spec: the walk of a mapping against the fields of `T` by name
(4.4): each entry that names a field and can be coerced to it is set on the handle. -/
def walkEntries (pool : Registry) (preserve_int64 : Bool) (T : TypeDescriptor) :
    List (String × DynamicValue) → List (Nat × FieldValue) → List (Nat × FieldValue)
  | [], fields => fields
  | (key, v) :: rest, fields =>
    match T.byName key with
    | none => walkEntries pool preserve_int64 T rest fields
    | some fd =>
      match coerce pool preserve_int64 fd (fd.cardinality = .repeated) v with
      | none => walkEntries pool preserve_int64 T rest fields
      | some w => walkEntries pool preserve_int64 T rest (setField fd.number w fields)
end

/-- Modelled from the spec: whether every field of `T` marked required has been set
(4.4), given the numbers of the fields that have a value. -/
def requiredPresent (T : TypeDescriptor) (present : List Nat) : Bool :=
  T.fields.all (fun fd => fd.cardinality != .required || present.contains fd.number)

mutual
/-- Modelled from the spec: the required-field validation below one field value
(4.4, "recursively through nested required messages"). -/
def requiredSetValue (pool : Registry) (fd : FieldDescriptor) : FieldValue → Bool
  | .message fields _ =>
    match pool.lookup fd.type_name with
    | some T => requiredPresent T (fieldsPresent fields) && requiredSetFields pool T fields
    | none => true
  | _ => true
/-- Modelled from the spec: the validation of the nested required messages among the
fields of a handle (4.4). -/
def requiredSetFields (pool : Registry) (T : TypeDescriptor) : List (Nat × FieldValue) → Bool
  | [] => true
  | (n, v) :: rest =>
    (match T.byNumber n with
     | some fd => fd.cardinality != .required || requiredSetValue pool fd v
     | none => true) && requiredSetFields pool T rest
end

/-- Modelled from the spec: `SerializePart` (serialize.h), the Encoder's walk of 4.4.
The structured value is walked against the descriptor the message is bound to and
the fields it names are set; the result is negative when a required field is
missing afterwards. -/
def SerializePart (message : Message) (subj : DynamicValue) (preserve_int64 : Bool) :
    Int × Message :=
  let entries := match subj with
    | .mapping entries => entries
    | _ => []
  let fields := walkEntries message.descriptor.pool preserve_int64 message.descriptor.type
    entries message.fields
  let filled := { message with fields := fields }
  if requiredPresent message.descriptor.type (fieldsPresent fields) &&
      requiredSetFields message.descriptor.pool message.descriptor.type fields then
    (0, filled)
  else (-1, filled)

/-- Modelled from the spec: the reserved key of the unknown-field entries (section 3),
distinct from any legal field name. -/
def unknownFieldsKey : String := "$unknown"

/-- The native number an element of a repeated numeric field is in a packed buffer. -/
def numberOf : FieldValue → Native
  | .integer v => Native.ofInt v
  | .float x => x
  | _ => .nan

/-- The unknown entries of one nesting level under the reserved key, when they are
asked for and there are any. -/
def unknownEntry (withUnknown : Bool) (unknown : List UnknownFieldEntry) :
    List (String × DynamicValue) :=
  if withUnknown && !unknown.isEmpty then [(unknownFieldsKey, .unknownFields unknown)] else []

mutual
/-- Modelled from the spec: the projection of one field value (4.3), by cardinality
and semantic kind. -/
def projectValue (pool : Registry) (preserve_int64 use_typed_array withUnknown : Bool)
    (fd : FieldDescriptor) : FieldValue → DynamicValue
  | .integer v =>
    if fd.kind.is64 then
      (if preserve_int64 then .decimal v else .number (Native.ofIntRounded v))
    else .number (Native.ofInt v)
  | .float x => .number x
  | .boolean b => .boolean b
  | .string s => .string s
  | .bytes b => .bytes b
  | .message fields unknown =>
    match pool.lookup fd.type_name with
    | some T =>
      .mapping (projectFields pool preserve_int64 use_typed_array withUnknown T fields
        ++ unknownEntry withUnknown unknown)
    | none => .null
  | .repeated items =>
    if use_typed_array && fd.kind.isFixedWidthNumeric then .packed fd.kind (items.map numberOf)
    else .list (projectItems pool preserve_int64 use_typed_array withUnknown fd items)
/-- Modelled from the spec: the projections of the elements of a repeated field, an
ordered list (4.3). -/
def projectItems (pool : Registry) (preserve_int64 use_typed_array withUnknown : Bool)
    (fd : FieldDescriptor) : List FieldValue → List DynamicValue
  | [] => []
  | w :: ws =>
    projectValue pool preserve_int64 use_typed_array withUnknown fd w
      :: projectItems pool preserve_int64 use_typed_array withUnknown fd ws
/-- Modelled from the spec: the projection of the present fields of a handle of type
`T` into the entries of a mapping, keyed by field name (4.3). -/
def projectFields (pool : Registry) (preserve_int64 use_typed_array withUnknown : Bool)
    (T : TypeDescriptor) : List (Nat × FieldValue) → List (String × DynamicValue)
  | [] => []
  | (n, w) :: rest =>
    match T.byNumber n with
    | some fd =>
      (fd.name, projectValue pool preserve_int64 use_typed_array withUnknown fd w)
        :: projectFields pool preserve_int64 use_typed_array withUnknown T rest
    | none => projectFields pool preserve_int64 use_typed_array withUnknown T rest
end

/-- Modelled from the spec: `ParsePart` (parse.h), the Decoder's projection of 4.3. -/
def ParsePart (message : Message) (preserve_int64 use_typed_array : Bool) : DynamicValue :=
  .mapping (projectFields message.descriptor.pool preserve_int64 use_typed_array false
    message.descriptor.type message.fields)

/-- Modelled from the spec: `ParsePartWithUnknown` (parse.h), the projection of 4.3
with the unknown entries of each nesting level under the reserved key. -/
def ParsePartWithUnknown (message : Message) (preserve_int64 use_typed_array : Bool) :
    DynamicValue :=
  .mapping (projectFields message.descriptor.pool preserve_int64 use_typed_array true
    message.descriptor.type message.fields ++ unknownEntry true message.unknown)

/-! ## The premises of the round trip -/

/-- Modelled from the spec: the invariant of a TypeDescriptor (section 3): field
names and field numbers are unique within the type. -/
def TypeDescriptor.wellFormed (T : TypeDescriptor) : Bool :=
  decide ((T.fields.map (fun fd => fd.name)).Nodup) &&
  decide ((T.fields.map (fun fd => fd.number)).Nodup)

/-- Modelled from the spec: the invariant of the data model (section 3) for a whole
registry: every registered TypeDescriptor has unique field names and numbers. -/
def Registry.wellFormed (pool : Registry) : Bool := pool.all TypeDescriptor.wellFormed

mutual
/-- Whether a structured value satisfies the field-kind constraints of field `fd`
(`rep` tells whether a whole repeated field is meant) and has the representation
the Decoder of 4.3 emits under the flags `preserve_int64` and `use_typed_array`.

Field-kind constraints: a boolean, string or byte sequence for the kind of that
name; a native number that the numeric kind holds as it stands
(`SemanticKind.holds`); for a message kind a mapping with unique keys (section 3)
whose entries satisfy the constraints of the fields they name.

Representation: a 64-bit integer is a decimal string when `preserve_int64` is set,
else a native number; a repeated field is a packed
buffer when `use_typed_array` is set and its kind is fixed-width numeric, else a
list; it has at least one element; no member is null, an unknown-field entry, or
named by a key that is no field of the type. -/
def conforms (pool : Registry) (preserve_int64 use_typed_array : Bool) (fd : FieldDescriptor)
    (rep : Bool) : DynamicValue → Bool
  | .null => false
  | .unknownFields _ => false
  | .boolean _ => !rep && fd.kind = .bool
  | .number x =>
    !rep && fd.kind.holds x && (!fd.kind.is64 || !preserve_int64)
  | .decimal n => !rep && fd.kind.is64 && preserve_int64 && fd.kind.inRange n
  | .string _ => !rep && fd.kind = .string
  | .bytes _ => !rep && fd.kind = .bytes
  | .mapping entries =>
    !rep && fd.kind = .message &&
      match pool.lookup fd.type_name with
      | some T =>
        decide ((entries.map (fun e => e.1)).Nodup) &&
          conformsEntries pool preserve_int64 use_typed_array T entries
      | none => false
  | .list items =>
    rep && !(use_typed_array && fd.kind.isFixedWidthNumeric) && !items.isEmpty &&
      conformsItems pool preserve_int64 use_typed_array fd items
  | .packed kind elements =>
    rep && use_typed_array && fd.kind.isFixedWidthNumeric && kind = fd.kind &&
      !elements.isEmpty && elements.all fd.kind.holds
/-- Whether every element of a list is a single value of field `fd` that conforms. -/
def conformsItems (pool : Registry) (preserve_int64 use_typed_array : Bool)
    (fd : FieldDescriptor) : List DynamicValue → Bool
  | [] => true
  | v :: vs =>
    conforms pool preserve_int64 use_typed_array fd false v &&
      conformsItems pool preserve_int64 use_typed_array fd vs
/-- Whether every entry of a mapping names a field of `T` and holds a value of that
field that conforms. -/
def conformsEntries (pool : Registry) (preserve_int64 use_typed_array : Bool)
    (T : TypeDescriptor) : List (String × DynamicValue) → Bool
  | [] => true
  | (key, v) :: rest =>
    (match T.byName key with
     | some fd => conforms pool preserve_int64 use_typed_array fd (fd.cardinality = .repeated) v
     | none => false) &&
      conformsEntries pool preserve_int64 use_typed_array T rest
end

/-- Whether every field of `T` marked required is among the keys of a mapping. -/
def requiredKeys (T : TypeDescriptor) (entries : List (String × DynamicValue)) : Bool :=
  T.fields.all (fun fd =>
    fd.cardinality != .required || (entries.map (fun e => e.1)).contains fd.name)

mutual
/-- Whether the value of field `fd` has its required fields at every level: each
message in it, also inside a list, has every required field of its type. -/
def hasRequired (pool : Registry) (fd : FieldDescriptor) : DynamicValue → Bool
  | .mapping entries =>
    match pool.lookup fd.type_name with
    | some T => requiredKeys T entries && hasRequiredEntries pool T entries
    | none => true
  | .list items => hasRequiredItems pool fd items
  | _ => true
/-- Whether every element of a list has its required fields at every level. -/
def hasRequiredItems (pool : Registry) (fd : FieldDescriptor) : List DynamicValue → Bool
  | [] => true
  | v :: vs => hasRequired pool fd v && hasRequiredItems pool fd vs
/-- Whether the values of the entries of a mapping have their required fields at
every level. -/
def hasRequiredEntries (pool : Registry) (T : TypeDescriptor) :
    List (String × DynamicValue) → Bool
  | [] => true
  | (key, v) :: rest =>
    (match T.byName key with
     | some fd => hasRequired pool fd v
     | none => true) && hasRequiredEntries pool T rest
end

/-- The round trip of one structured value, at every field: when the value conforms
to the field, the Encoder of 4.4 coerces it to a field value; whatever equal field
value the Decoder of 4.3 is then given, its projection is equal to the structured
value; and the field value passes the validation of the required fields when the
structured value has its required fields at every level. -/
def RoundTripsAt (pool : Registry) (preserve_int64 use_typed_array : Bool) (v : DynamicValue) :
    Prop :=
  ∀ (fd : FieldDescriptor) (rep : Bool),
    conforms pool preserve_int64 use_typed_array fd rep v = true →
    ∃ w, coerce pool preserve_int64 fd rep v = some w ∧
      (∀ w1, w.sameAs w1 = true →
        v.sameAs (projectValue pool preserve_int64 use_typed_array false fd w1) = true) ∧
      (hasRequired pool fd v = true → requiredSetValue pool fd w = true)

/-! ## An example wire layer

The protobuf wire encoding (tag-length-value records over base-128 varints,
little-endian fixed-width integers and length-delimited blocks) for the reference
library.  It gives the examples below concrete bytes; no theorem depends on its
details, the theorems quantify over the wire layer. -/

namespace Wire

/-- Base-128 varint of `n`, least significant group first (at most `fuel + 1` bytes). -/
def varint : Nat → Nat → Bytes
  | 0, n => [n % 128]
  | fuel + 1, n => if n < 128 then [n] else (n % 128 + 128) :: varint fuel (n / 128)

/-- Reads one varint: its value and the remaining bytes. -/
def readVarint : Bytes → Option (Nat × Bytes)
  | [] => none
  | b :: rest =>
    if b < 128 then some (b, rest)
    else
      match readVarint rest with
      | some (v, rest1) => some (b - 128 + 128 * v, rest1)
      | none => none

/-- Payload of one wire record; length-delimited payloads are held without their
length prefix. -/
inductive Payload where
  | varint (n : Nat)
  | fixed64 (b : Bytes)
  | lengthDelimited (b : Bytes)
  | fixed32 (b : Bytes)
deriving DecidableEq, Repr

/-- Reads one record (field number and payload) and returns the remaining bytes. -/
def readRecord (data : Bytes) : Option ((Nat × Payload) × Bytes) :=
  match readVarint data with
  | none => none
  | some (tag, rest) =>
    if tag % 8 = 0 then
      match readVarint rest with
      | some (v, rest1) => some ((tag / 8, .varint v), rest1)
      | none => none
    else if tag % 8 = 1 then
      if rest.length < 8 then none else some ((tag / 8, .fixed64 (rest.take 8)), rest.drop 8)
    else if tag % 8 = 2 then
      match readVarint rest with
      | some (len, rest1) =>
        if rest1.length < len then none
        else some ((tag / 8, .lengthDelimited (rest1.take len)), rest1.drop len)
      | none => none
    else if tag % 8 = 5 then
      if rest.length < 4 then none else some ((tag / 8, .fixed32 (rest.take 4)), rest.drop 4)
    else none

/-- Reads all records of `data` (at most `fuel` of them). -/
def readRecords : Nat → Bytes → Option (List (Nat × Payload))
  | _, [] => some []
  | 0, _ :: _ => none
  | fuel + 1, b :: bs =>
    match readRecord (b :: bs) with
    | none => none
    | some (r, rest) =>
      match readRecords fuel rest with
      | some rs => some (r :: rs)
      | none => none

/-- The text held by a length-delimited payload (one character per byte). -/
def text (b : Bytes) : String := String.mk (b.map Char.ofNat)

/-- The bytes of a text (one byte per character). -/
def textBytes (s : String) : Bytes := s.data.map Char.toNat

/-- All length-delimited payloads of field `number`, in order. -/
def blocks (number : Nat) : List (Nat × Payload) → List Bytes
  | [] => []
  | (n, .lengthDelimited b) :: rs => if n = number then b :: blocks number rs else blocks number rs
  | _ :: rs => blocks number rs

/-- The last varint payload of field `number`, 0 when there is none. -/
def scalar (number : Nat) (rs : List (Nat × Payload)) : Nat :=
  rs.foldl (fun last r =>
    match r with
    | (n, .varint v) => if n = number then v else last
    | _ => last) 0

/-- The string field `number` of a record list, empty when absent. -/
def stringField (number : Nat) (rs : List (Nat × Payload)) : Bytes :=
  ((blocks number rs).getLast?).getD []

/-- The semantic kind of a `FieldDescriptorProto.Type` number. -/
def kindOfType (t : Nat) : Option SemanticKind :=
  if t = 1 then some .double else if t = 2 then some .float
  else if t = 3 then some .int64 else if t = 4 then some .uint64
  else if t = 5 then some .int32 else if t = 6 then some .fixed64
  else if t = 7 then some .fixed32 else if t = 8 then some .bool
  else if t = 9 then some .string else if t = 11 then some .message
  else if t = 12 then some .bytes else if t = 13 then some .uint32
  else if t = 14 then some .enum else if t = 17 then some .sint32
  else if t = 18 then some .sint64 else none

/-- The cardinality of a `FieldDescriptorProto.Label` number. -/
def cardinalityOfLabel (l : Nat) : Option Cardinality :=
  if l = 1 then some .optional else if l = 2 then some .required
  else if l = 3 then some .repeated else none

/-- A type reference without its leading dot. -/
def stripDot : Bytes → Bytes
  | 46 :: rest => rest
  | b => b

/-- Parses a serialized `FieldDescriptorProto` (name 1, number 3, label 4, type 5,
type_name 6). -/
def parseFieldDescriptor (data : Bytes) : Option FieldDescriptor :=
  match readRecords data.length data with
  | none => none
  | some rs =>
    match kindOfType (scalar 5 rs), cardinalityOfLabel (scalar 4 rs) with
    | some kind, some cardinality =>
      some { number := scalar 3 rs, name := text (stringField 1 rs), kind := kind,
             cardinality := cardinality, type_name := text (stripDot (stringField 6 rs)) }
    | _, _ => none

/-- Parses a serialized `DescriptorProto` (name 1, field 2, nested_type 3). -/
def parseDescriptorProto : Nat → Bytes → Option DescriptorProto
  | 0, _ => none
  | fuel + 1, data =>
    match readRecords data.length data with
    | none => none
    | some rs =>
      match (blocks 2 rs).mapM parseFieldDescriptor,
            (blocks 3 rs).mapM (parseDescriptorProto fuel) with
      | some field, some nested => some (.mk (text (stringField 1 rs)) field nested)
      | _, _ => none

/-- Parses a serialized `FileDescriptorProto` (name 1, package 2, message_type 4). -/
def parseFileDescriptorProto (data : Bytes) : Option FileDescriptorProto :=
  match readRecords data.length data with
  | none => none
  | some rs =>
    match (blocks 4 rs).mapM (parseDescriptorProto data.length) with
    | some message_type =>
      some { name := text (stringField 1 rs), package := text (stringField 2 rs),
             message_type := message_type }
    | none => none

/-- Parses a serialized `FileDescriptorSet` (file 1). -/
def parseFileDescriptorSet (data : Bytes) : Option FileDescriptorSet :=
  match readRecords data.length data with
  | none => none
  | some rs =>
    match (blocks 1 rs).mapM parseFileDescriptorProto with
    | some file => some ⟨file⟩
    | none => none

/-- Two's-complement reading of the low `bits` bits of `v`. -/
def toSigned (bits : Nat) (v : Nat) : Int :=
  if v % 2 ^ bits < 2 ^ (bits - 1) then (v % 2 ^ bits : Nat) else (v % 2 ^ bits : Nat) - 2 ^ bits

/-- Two's-complement 64-bit pattern of `v`. -/
def ofSigned (v : Int) : Nat := (v % 2 ^ 64).toNat

/-- ZigZag decoding. -/
def unzigzag (v : Nat) : Int := if v % 2 = 0 then (v / 2 : Nat) else -((v + 1) / 2 : Nat)

/-- ZigZag encoding. -/
def zigzag (v : Int) : Nat := if 0 ≤ v then (2 * v).toNat else (-2 * v - 1).toNat

/-- Little-endian value of a byte string. -/
def littleEndian : Bytes → Nat
  | [] => 0
  | b :: bs => b + 256 * littleEndian bs

/-- The `width` little-endian bytes of `n`. -/
def toLittleEndian : Nat → Nat → Bytes
  | 0, _ => []
  | width + 1, n => n % 256 :: toLittleEndian width (n / 256)

/-- The bit pattern of a native number in the binary floating-point format with
`fracBits` fraction bits and `expBits` exponent bits; `none` when the format does
not hold the number exactly. -/
def floatBits (fracBits expBits : Nat) : Native → Option Nat
  | .nan => some ((2 ^ expBits - 1) * 2 ^ fracBits + 2 ^ (fracBits - 1))
  | .infinity negative =>
    some ((if negative then 2 ^ (fracBits + expBits) else 0) + (2 ^ expBits - 1) * 2 ^ fracBits)
  | .finite mantissa exponent =>
    match Native.normalize mantissa.natAbs mantissa exponent with
    | .finite m e =>
      if m = 0 then some 0
      else
        let sign := if m < 0 then 2 ^ (fracBits + expBits) else 0
        let bias : Int := 2 ^ (expBits - 1) - 1
        let leading : Int := Native.bits m - 1 + e
        if leading > bias then none
        else if 1 - bias ≤ leading then
          if Native.bits m ≤ fracBits + 1 then
            some (sign + (leading + bias).toNat * 2 ^ fracBits
              + (m.natAbs * 2 ^ (fracBits + 1 - Native.bits m) - 2 ^ fracBits))
          else none
        else
          if 1 - bias - fracBits ≤ e then
            some (sign + m.natAbs * 2 ^ (e - (1 - bias - fracBits)).toNat)
          else none
    | _ => none

/-- The native number of a bit pattern of the binary floating-point format with
`fracBits` fraction bits and `expBits` exponent bits. -/
def ofFloatBits (fracBits expBits : Nat) (bits : Nat) : Native :=
  let frac := bits % 2 ^ fracBits
  let ex := (bits / 2 ^ fracBits) % 2 ^ expBits
  let negative := (bits / 2 ^ (fracBits + expBits)) % 2 = 1
  let bias : Int := 2 ^ (expBits - 1) - 1
  if ex = 2 ^ expBits - 1 then
    if frac = 0 then .infinity (decide negative) else .nan
  else
    let m : Int := if ex = 0 then frac else frac + 2 ^ fracBits
    let e : Int := (if ex = 0 then 1 else ex) - bias - fracBits
    Native.normalize m.natAbs (if negative then -m else m) e

/-- The value of a non-message field read from a payload; `none` when the payload's
wire type does not fit the kind. -/
def readScalar : SemanticKind → Payload → Option FieldValue
  | .int32, .varint v => some (.integer (toSigned 32 v))
  | .int64, .varint v => some (.integer (toSigned 64 v))
  | .uint32, .varint v => some (.integer (v % 2 ^ 32 : Nat))
  | .uint64, .varint v => some (.integer (v % 2 ^ 64 : Nat))
  | .sint32, .varint v => some (.integer (unzigzag v))
  | .sint64, .varint v => some (.integer (unzigzag v))
  | .enum, .varint v => some (.integer (toSigned 32 v))
  | .bool, .varint v => some (.boolean (v != 0))
  | .fixed32, .fixed32 b => some (.integer (littleEndian b : Nat))
  | .fixed64, .fixed64 b => some (.integer (littleEndian b : Nat))
  | .float, .fixed32 b => some (.float (ofFloatBits 23 8 (littleEndian b)))
  | .double, .fixed64 b => some (.float (ofFloatBits 52 11 (littleEndian b)))
  | .string, .lengthDelimited b => some (.string (text b))
  | .bytes, .lengthDelimited b => some (.bytes b)
  | _, _ => none

/-- The wire kind and raw bytes (after the tag) of a payload. -/
def rawPayload : Payload → WireKind × Bytes
  | .varint v => (.varint, varint 9 v)
  | .fixed64 b => (.fixed64, b)
  | .lengthDelimited b => (.lengthDelimited, varint 9 b.length ++ b)
  | .fixed32 b => (.fixed32, b)

/-- Stores a parsed value: a repeated field gets one more element, any other field
is set (a later value replaces an earlier one). -/
def store (fd : FieldDescriptor) (v : FieldValue) :
    List (Nat × FieldValue) → List (Nat × FieldValue)
  | [] => [(fd.number, if fd.cardinality = .repeated then .repeated [v] else v)]
  | (n, w) :: rest =>
    if n = fd.number then
      match fd.cardinality, w with
      | .repeated, .repeated items => (n, .repeated (items ++ [v])) :: rest
      | _, _ => (n, v) :: rest
    else (n, w) :: store fd v rest

/-- Parses the records of a message of type `T`: the fields with a value and the
unknown entries.  Fails on a payload that does not fit its field, on an unresolved
nested type and on a missing required field. -/
def parseRecords (pool : Registry) : Nat → TypeDescriptor → List (Nat × Payload) →
    List (Nat × FieldValue) → List UnknownFieldEntry →
    Option (List (Nat × FieldValue) × List UnknownFieldEntry)
  | _, T, [], fields, unknown =>
    if requiredPresent T (fieldsPresent fields) then some (fields, unknown) else none
  | 0, _, _ :: _, _, _ => none
  | fuel + 1, T, (n, p) :: rs, fields, unknown =>
    match T.fields.find? (fun fd => fd.number = n) with
    | none => parseRecords pool fuel T rs fields (unknown ++ [⟨n, (rawPayload p).1, (rawPayload p).2⟩])
    | some fd =>
      if fd.kind = .message then
        match p, pool.lookup fd.type_name with
        | .lengthDelimited b, some T1 =>
          match readRecords b.length b with
          | none => none
          | some rs1 =>
            match parseRecords pool fuel T1 rs1 [] [] with
            | none => none
            | some (fields1, unknown1) =>
              parseRecords pool fuel T rs (store fd (.message fields1 unknown1) fields) unknown
        | _, _ => none
      else
        match readScalar fd.kind p with
        | none => none
        | some v => parseRecords pool fuel T rs (store fd v fields) unknown

/-- The tag of field `number` with wire type `wireType`. -/
def tag (number wireType : Nat) : Bytes := varint 9 (number * 8 + wireType)

/-- One non-message value of a field as a wire record. -/
def writeScalar (fd : FieldDescriptor) : FieldValue → Option Bytes
  | .integer v =>
    match fd.kind with
    | .int32 | .int64 | .enum => some (tag fd.number 0 ++ varint 9 (ofSigned v))
    | .uint32 | .uint64 => some (tag fd.number 0 ++ varint 9 v.toNat)
    | .sint32 | .sint64 => some (tag fd.number 0 ++ varint 9 (zigzag v))
    | .fixed32 => some (tag fd.number 5 ++ toLittleEndian 4 v.toNat)
    | .fixed64 => some (tag fd.number 1 ++ toLittleEndian 8 v.toNat)
    | _ => none
  | .float x =>
    match fd.kind with
    | .float =>
      match floatBits 23 8 x with
      | some bits => some (tag fd.number 5 ++ toLittleEndian 4 bits)
      | none => none
    | .double =>
      match floatBits 52 11 x with
      | some bits => some (tag fd.number 1 ++ toLittleEndian 8 bits)
      | none => none
    | _ => none
  | .boolean b =>
    if fd.kind = .bool then some (tag fd.number 0 ++ [if b then 1 else 0]) else none
  | .string s =>
    if fd.kind = .string then
      some (tag fd.number 2 ++ varint 9 (textBytes s).length ++ textBytes s)
    else none
  | .bytes b =>
    if fd.kind = .bytes then some (tag fd.number 2 ++ varint 9 b.length ++ b) else none
  | _ => none

/-- The unknown entries of a message as wire records. -/
def writeUnknown : List UnknownFieldEntry → Bytes
  | [] => []
  | u :: us =>
    tag u.number (match u.wireKind with
      | .varint => 0 | .fixed64 => 1 | .lengthDelimited => 2 | .fixed32 => 5)
      ++ u.raw ++ writeUnknown us

/-- Puts the records of one field into a list of fields ordered by field number,
after the fields with the same or a smaller number. -/
def insertChunk (c : Nat × Bytes) : List (Nat × Bytes) → List (Nat × Bytes)
  | [] => [c]
  | d :: rest => if c.1 < d.1 then c :: d :: rest else d :: insertChunk c rest

/-- The records of the fields of a message, in field-number order. -/
def orderedRecords (chunks : List (Nat × Bytes)) : Bytes :=
  ((chunks.foldl (fun sorted c => insertChunk c sorted) []).map (fun c => c.2)).flatten

mutual
/-- The value of field `fd` as wire records (one record per element of a repeated
field). -/
def writeValue (pool : Registry) (fd : FieldDescriptor) : FieldValue → Option Bytes
  | .message fields unknown =>
    match pool.lookup fd.type_name with
    | none => none
    | some T1 =>
      match writeFields pool T1 fields with
      | none => none
      | some chunks =>
        some (tag fd.number 2
          ++ varint 9 (orderedRecords chunks ++ writeUnknown unknown).length
          ++ orderedRecords chunks ++ writeUnknown unknown)
  | .repeated items => writeItems pool fd items
  | .integer v => writeScalar fd (.integer v)
  | .float x => writeScalar fd (.float x)
  | .boolean b => writeScalar fd (.boolean b)
  | .string s => writeScalar fd (.string s)
  | .bytes b => writeScalar fd (.bytes b)
/-- The elements of a repeated field as wire records. -/
def writeItems (pool : Registry) (fd : FieldDescriptor) : List FieldValue → Option Bytes
  | [] => some []
  | v :: vs =>
    match writeValue pool fd v, writeItems pool fd vs with
    | some a, some b => some (a ++ b)
    | _, _ => none
/-- The wire records of each field of a message of type `T`, with its number. -/
def writeFields (pool : Registry) (T : TypeDescriptor) :
    List (Nat × FieldValue) → Option (List (Nat × Bytes))
  | [] => some []
  | (n, v) :: rest =>
    match T.fields.find? (fun fd => fd.number = n) with
    | none => none
    | some fd =>
      match writeValue pool fd v, writeFields pool T rest with
      | some a, some b => some ((n, a) :: b)
      | _, _ => none
end

/-- The serialization of a message handle, its fields in field-number order; `none`
when a value does not fit its field. -/
def writeMessage (m : Message) : Option Bytes :=
  match writeFields m.descriptor.pool m.descriptor.type m.fields with
  | some chunks => some (orderedRecords chunks ++ writeUnknown m.unknown)
  | none => none

/-- Whether the stream's total-bytes limit, when one is installed, admits its data. -/
def withinLimit (stream : CodedInputStream) : Bool :=
  match stream.total_bytes_limit with
  | none => true
  | some (limit, _) => decide ((stream.data.length : Int) ≤ limit)

/-- Parsing a stream into a message handle. -/
def parseMessage (m : Message) (stream : CodedInputStream) : Bool × Message :=
  if withinLimit stream then
    match readRecords stream.data.length stream.data with
    | none => (false, m)
    | some rs =>
      match parseRecords m.descriptor.pool (stream.data.length + 1) m.descriptor.type rs [] [] with
      | none => (false, m)
      | some (fields, unknown) => (true, { m with fields := fields, unknown := unknown })
  else (false, m)

end Wire

/-- The example wire layer. -/
def exampleWire : WireFormat where
  ParseFromArray := Wire.parseFileDescriptorSet
  ParseFromCodedStream := Wire.parseMessage
  ByteSize := fun m => ((Wire.writeMessage m).getD []).length
  SerializeToArray := fun m size =>
    match Wire.writeMessage m with
    | some bytes => if (bytes.length : Int) ≤ size then (true, bytes) else (false, [])
    | none => (false, [])

/-- The reference library over the example wire layer. -/
abbrev exampleLibrary : Protobuf := referenceLibrary exampleWire

/-! ## The registry in the words of the specification -/

/-- The files of a descriptor set in input order, `file(0)` to `file(file_size - 1)`. -/
def filesOf (L : Protobuf) (descriptors : L.FileDescriptorSet) : List L.FileDescriptorProto :=
  (List.range (L.file_size descriptors)).map (L.file descriptors)

/-- The operation `build` of 4.1 in the specification's words: the files are built
into the registry one after the other in input order; the result is the registry and
the built files, or nothing when a file cannot be built. -/
def buildInOrder (L : Protobuf) :
    List L.FileDescriptorProto → L.DescriptorPool → Option (L.DescriptorPool × List L.FileDescriptor)
  | [], pool => some (pool, [])
  | proto :: rest, pool =>
    match L.BuildFile pool proto with
    | (pool1, some f) =>
      match buildInOrder L rest pool1 with
      | some (pool2, fs) => some (pool2, f :: fs)
      | none => none
    | (_, none) => none

/-- The fully-qualified names of the message types of one built file, in declaration
order. -/
def messageTypeNames (L : Protobuf) (f : L.FileDescriptor) : List String :=
  (List.range (L.message_type_count f)).map (fun i => L.full_name (L.message_type f i))

/-- The operation `listTypeNames` of 4.1 in the specification's words: declaration
order across the file list, then declaration order within each file. -/
def listTypeNames (L : Protobuf) (files : List L.FileDescriptor) : List String :=
  (files.map (messageTypeNames L)).flatten

/-- The fully-qualified names of the top-level message types a file declares. -/
def topLevelNames (proto : FileDescriptorProto) : List String :=
  proto.message_type.map (fun d => qualify proto.package d.name)

/-! ## Example inputs -/

/-- A serialized descriptor set with two files: `geo.proto` (package `geo`) declares
`Point (x : int32 required = 1, y : int32 required = 2)` and
`Path (points : repeated Point = 1, label : optional string = 2)` with the nested
type `Segment (a : required Point = 1, b : optional Point = 2)`; `ids.proto` (no
package) declares `Id (value : int64 required = 1)`. -/
def exampleSetBytes : Bytes :=
  [10, 155, 1, 10, 9, 103, 101, 111, 46, 112, 114, 111, 116, 111, 18, 3, 103, 101, 111, 34, 29,
   10, 5, 80, 111, 105, 110, 116, 18, 9, 10, 1, 120, 24, 1, 32, 2, 40, 5, 18, 9, 10, 1, 121, 24,
   2, 32, 2, 40, 5, 34, 106, 10, 4, 80, 97, 116, 104, 18, 26, 10, 6, 112, 111, 105, 110, 116,
   115, 24, 1, 32, 3, 40, 11, 50, 10, 46, 103, 101, 111, 46, 80, 111, 105, 110, 116, 18, 13, 10,
   5, 108, 97, 98, 101, 108, 24, 2, 32, 1, 40, 9, 26, 55, 10, 7, 83, 101, 103, 109, 101, 110,
   116, 18, 21, 10, 1, 97, 24, 1, 32, 2, 40, 11, 50, 10, 46, 103, 101, 111, 46, 80, 111, 105,
   110, 116, 18, 21, 10, 1, 98, 24, 2, 32, 1, 40, 11, 50, 10, 46, 103, 101, 111, 46, 80, 111,
   105, 110, 116, 10, 32, 10, 9, 105, 100, 115, 46, 112, 114, 111, 116, 111, 34, 19, 10, 2, 73,
   100, 18, 13, 10, 5, 118, 97, 108, 117, 101, 24, 1, 32, 2, 40, 3]

/-- The type `geo.Point` of the example set. -/
def pointType : TypeDescriptor :=
  ⟨"geo.Point", [⟨1, "x", .int32, .required, ""⟩, ⟨2, "y", .int32, .required, ""⟩]⟩

/-- The type `geo.Path` of the example set. -/
def pathType : TypeDescriptor :=
  ⟨"geo.Path", [⟨1, "points", .message, .repeated, "geo.Point"⟩,
    ⟨2, "label", .string, .optional, ""⟩]⟩

/-- The type `geo.Path.Segment` of the example set. -/
def segmentType : TypeDescriptor :=
  ⟨"geo.Path.Segment", [⟨1, "a", .message, .required, "geo.Point"⟩,
    ⟨2, "b", .message, .optional, "geo.Point"⟩]⟩

/-- The type `Id` of the example set. -/
def idType : TypeDescriptor := ⟨"Id", [⟨1, "value", .int64, .required, ""⟩]⟩

/-- The example set as the library parses it. -/
def exampleSet : FileDescriptorSet :=
  ⟨[⟨"geo.proto", "geo",
      [.mk "Point" pointType.fields [],
       .mk "Path" pathType.fields [.mk "Segment" segmentType.fields []]]⟩,
    ⟨"ids.proto", "", [.mk "Id" idType.fields []]⟩]⟩

/-- The object `new NativeProtobuf(exampleSetBytes, preserve_int64)` yields. -/
def exampleCodec (preserve_int64 : Bool) : NativeProtobuf exampleLibrary :=
  { pool := [pointType, pathType, segmentType, idType], factory := [],
    preserve_int64 := preserve_int64, info := ["geo.Point", "geo.Path", "Id"] }

/-- A serialized descriptor set whose two files `a.proto` and `b.proto` both declare
the message type `A`. -/
def clashingSetBytes : Bytes :=
  [10, 14, 10, 7, 97, 46, 112, 114, 111, 116, 111, 34, 3, 10, 1, 65,
   10, 14, 10, 7, 98, 46, 112, 114, 111, 116, 111, 34, 3, 10, 1, 65]

/-- Arguments `parse(buffer, schema_name)`. -/
def exampleArgs (buffer_data : Bytes) (schema_name : String) : ParseArgs :=
  { Length := 2, buffer_data := buffer_data, schema_name := schema_name,
    maxBytes := 0, warnBytes := 0, arg4 := false }

/-- A value of `geo.Path` in the decoder's form: two points and a label. -/
def examplePath : DynamicValue :=
  .mapping [("points", .list [.mapping [("x", .number 1), ("y", .number 2)],
                              .mapping [("x", .number 3), ("y", .number 4)]]),
            ("label", .string "hi")]

set_option maxRecDepth 100000 in
/-- The scenarios of section 8 on the example codec: `Point (x = 1, y = 2)` is encoded
to the four bytes `08 01 10 02` and decoded to itself; `Point (x = 1)` misses a
required field and `serialize` hands back `null`; the `int64` value 2^53 + 1 is
decoded to the decimal string "9007199254740993" with `preserve_int64` and to the
native number 9007199254740992 without. -/
theorem specification_scenarios :
    (NativeProtobuf.Serialize exampleLibrary SerializePart (exampleCodec false)
      (.mapping [("x", .number 1), ("y", .number 2)]) "geo.Point").2
      = ⟨none, .buffer [8, 1, 16, 2]⟩ ∧
    (NativeProtobuf.Parse exampleLibrary ParsePart (exampleCodec false)
      (exampleArgs [8, 1, 16, 2] "geo.Point")).2
      = ⟨none, .object (.mapping [("x", .number 1), ("y", .number 2)])⟩ ∧
    (NativeProtobuf.Serialize exampleLibrary SerializePart (exampleCodec false)
      (.mapping [("x", .number 1)]) "geo.Point").2 = ⟨none, .Null⟩ ∧
    (NativeProtobuf.Parse exampleLibrary ParsePart (exampleCodec true)
      (exampleArgs [8, 129, 128, 128, 128, 128, 128, 128, 16] "Id")).2
      = ⟨none, .object (.mapping [("value", .decimal 9007199254740993)])⟩ ∧
    (NativeProtobuf.Parse exampleLibrary ParsePart (exampleCodec false)
      (exampleArgs [8, 129, 128, 128, 128, 128, 128, 128, 16] "Id")).2
      = ⟨none, .object (.mapping [("value", .number 9007199254740992)])⟩ := by
  exact ⟨rfl, rfl, rfl, rfl, rfl⟩

/-! ## Unknown schema names -/

/-- Claim C3: when the schema name is absent from the registry
(`FindMessageTypeByName` yields `NULL`), `parse`, `parseWithUnknown` and `serialize`
each throw "Unknown schema name: " followed by that name, whatever the payload;
the value handed back is `null` (resp. `undefined`), never an object or a buffer,
and the codec object, registry and list of type names included, is left as it was. -/
theorem unknown_schema_fails_per_call (L : Protobuf) {Object : Type}
    (SerializePart : L.Message → Object → Bool → Int × L.Message)
    (ParsePart ParsePartWithUnknown : L.Message → Bool → Bool → Object)
    (self : NativeProtobuf L) (subj : Object) (info : ParseArgs)
    (habsent : L.FindMessageTypeByName self.pool info.schema_name = none) :
    NativeProtobuf.Parse L ParsePart self info
        = (self, ⟨some ("Unknown schema name: " ++ info.schema_name), .Null⟩) ∧
    NativeProtobuf.ParseWithUnknown L ParsePartWithUnknown self info
        = (self, ⟨some ("Unknown schema name: " ++ info.schema_name), .Null⟩) ∧
    NativeProtobuf.Serialize L SerializePart self subj info.schema_name
        = (self, ⟨some ("Unknown schema name: " ++ info.schema_name), .Undefined⟩) := by
  refine ⟨?_, ?_, ?_⟩
  · simp only [NativeProtobuf.Parse, habsent]
  · simp only [NativeProtobuf.ParseWithUnknown, habsent]
  · simp only [NativeProtobuf.Serialize, habsent]

/-- Witness for C3: the example codec has no type `geo.Nope`; malformed bytes and an
incomplete value both end in the unknown-schema error. -/
theorem unknown_schema_fails_per_call_witness :
    exampleLibrary.FindMessageTypeByName (exampleCodec true).pool "geo.Nope" = none ∧
    (NativeProtobuf.Parse exampleLibrary ParsePart (exampleCodec true)
        (exampleArgs [8, 1, 16] "geo.Nope")
        = (exampleCodec true, ⟨some "Unknown schema name: geo.Nope", .Null⟩) ∧
     NativeProtobuf.ParseWithUnknown exampleLibrary ParsePartWithUnknown (exampleCodec true)
        (exampleArgs [8, 1, 16] "geo.Nope")
        = (exampleCodec true, ⟨some "Unknown schema name: geo.Nope", .Null⟩) ∧
     NativeProtobuf.Serialize exampleLibrary SerializePart (exampleCodec true)
        (.mapping [("x", .number 1)]) "geo.Nope"
        = (exampleCodec true, ⟨some "Unknown schema name: geo.Nope", .Undefined⟩)) :=
  ⟨rfl,
   unknown_schema_fails_per_call exampleLibrary SerializePart ParsePart ParsePartWithUnknown
     (exampleCodec true) (.mapping [("x", .number 1)]) (exampleArgs [8, 1, 16] "geo.Nope") rfl⟩

/-! ## Serialize: the null result -/

/-- Claim C2: for a schema name the registry resolves, `serialize` hands back `null`
exactly when `SerializePart` returns a negative result; then nothing is thrown and
no bytes are produced (`ByteSize` and `SerializeToArray` are not reached).
Otherwise the result is the buffer filled by `SerializeToArray`, or the error
"Can't serialize" with `undefined`; it is never `null`.  A schema name the registry
does not resolve never ends in `null` either, so `null` tells the missing required
field apart from both errors. -/
theorem serialize_null_iff_required_missing (L : Protobuf) {Object : Type}
    (SerializePart : L.Message → Object → Bool → Int × L.Message)
    (self : NativeProtobuf L) (subj : Object) (schema_name : String)
    (descriptor : L.Descriptor)
    (hfound : L.FindMessageTypeByName self.pool schema_name = some descriptor) :
    let message := (L.GetPrototypeNew self.factory descriptor).2
    let walk := SerializePart message subj self.preserve_int64
    let result := (NativeProtobuf.Serialize L SerializePart self subj schema_name).2
    (result.returnValue = .Null ↔ walk.1 < 0) ∧
    (walk.1 < 0 → result = ⟨none, .Null⟩) ∧
    (¬ walk.1 < 0 →
      result = ⟨none, .buffer (L.SerializeToArray walk.2 (L.ByteSize walk.2)).2⟩ ∨
      result = ⟨some "Can't serialize", .Undefined⟩) ∧
    (∀ other : String, L.FindMessageTypeByName self.pool other = none →
      (NativeProtobuf.Serialize L SerializePart self subj other).2
        = ⟨some ("Unknown schema name: " ++ other), .Undefined⟩) := by
  intro message walk result
  have hother : ∀ other : String, L.FindMessageTypeByName self.pool other = none →
      (NativeProtobuf.Serialize L SerializePart self subj other).2
        = ⟨some ("Unknown schema name: " ++ other), .Undefined⟩ := by
    intro other habsent
    simp only [NativeProtobuf.Serialize, habsent]
  have hres : result = (NativeProtobuf.Serialize L SerializePart self subj schema_name).2 := rfl
  simp only [NativeProtobuf.Serialize, hfound] at hres
  by_cases hneg : walk.1 < 0
  · have hneg1 : (SerializePart (L.GetPrototypeNew self.factory descriptor).2 subj
        self.preserve_int64).1 < 0 := hneg
    rw [if_pos hneg1] at hres
    refine ⟨?_, fun _ => hres, fun h => absurd hneg h, hother⟩
    rw [hres]
    exact ⟨fun _ => hneg, fun _ => rfl⟩
  · have hneg1 : ¬ (SerializePart (L.GetPrototypeNew self.factory descriptor).2 subj
        self.preserve_int64).1 < 0 := hneg
    rw [if_neg hneg1] at hres
    cases hflag : (L.SerializeToArray walk.2 (L.ByteSize walk.2)).1
    · have hflag1 : (L.SerializeToArray (SerializePart (L.GetPrototypeNew self.factory
          descriptor).2 subj self.preserve_int64).2 (L.ByteSize (SerializePart
          (L.GetPrototypeNew self.factory descriptor).2 subj self.preserve_int64).2)).1
          = false := hflag
      simp only [hflag1, Bool.not_false, if_true] at hres
      refine ⟨?_, fun h => absurd h hneg, fun _ => Or.inr hres, hother⟩
      rw [hres]
      exact ⟨fun h => (by cases h), fun h => absurd h hneg⟩
    · have hflag1 : (L.SerializeToArray (SerializePart (L.GetPrototypeNew self.factory
          descriptor).2 subj self.preserve_int64).2 (L.ByteSize (SerializePart
          (L.GetPrototypeNew self.factory descriptor).2 subj self.preserve_int64).2)).1
          = true := hflag
      simp only [hflag1, Bool.not_true, Bool.false_eq_true, if_false] at hres
      refine ⟨?_, fun h => absurd h hneg, fun _ => Or.inl hres, hother⟩
      rw [hres]
      exact ⟨fun h => (by cases h), fun h => absurd h hneg⟩

/-- Witness for C2: `geo.Point` is in the example registry; the value `x = 1` lacks the
required field `y` and `serialize` hands back `null` without an error. -/
theorem serialize_null_iff_required_missing_witness :
    exampleLibrary.FindMessageTypeByName (exampleCodec true).pool "geo.Point"
      = some ⟨pointType, (exampleCodec true).pool⟩ ∧
    (NativeProtobuf.Serialize exampleLibrary SerializePart (exampleCodec true)
      (.mapping [("x", .number 1)]) "geo.Point").2 = ⟨none, .Null⟩ :=
  ⟨rfl,
   (serialize_null_iff_required_missing exampleLibrary SerializePart (exampleCodec true)
     (.mapping [("x", .number 1)]) "geo.Point" ⟨pointType, (exampleCodec true).pool⟩ rfl).2.1
     (by decide)⟩

/-! ## Parse: malformed input -/

/-- Claim C4: for a schema name the registry resolves, when
`ParseFromCodedStream` reports failure (the bytes do not parse as the type, or the
installed byte limit is exceeded), `parse` and `parseWithUnknown` throw
"Malformed protocol buffer" and hand back `null`: the message as the parser left it
is never projected.  An object is handed back only when the parser reported success. -/
theorem malformed_message_yields_no_value (L : Protobuf) {Object : Type}
    (ParsePart ParsePartWithUnknown : L.Message → Bool → Bool → Object)
    (self : NativeProtobuf L) (info : ParseArgs) (descriptor : L.Descriptor)
    (hfound : L.FindMessageTypeByName self.pool info.schema_name = some descriptor) :
    let message := (L.GetPrototypeNew self.factory descriptor).2
    let parsed := L.ParseFromCodedStream message (NativeProtobuf.Parse.coded_stream info)
    let parsedU := L.ParseFromCodedStream message
      (NativeProtobuf.ParseWithUnknown.coded_stream info)
    let result := (NativeProtobuf.Parse L ParsePart self info).2
    let resultU := (NativeProtobuf.ParseWithUnknown L ParsePartWithUnknown self info).2
    (parsed.1 = false → result = ⟨some "Malformed protocol buffer", .Null⟩) ∧
    (∀ o, result.returnValue = .object o → parsed.1 = true ∧ result.thrown = none) ∧
    (parsedU.1 = false → resultU = ⟨some "Malformed protocol buffer", .Null⟩) ∧
    (∀ o, resultU.returnValue = .object o → parsedU.1 = true ∧ resultU.thrown = none) := by
  intro message parsed parsedU result resultU
  have hres : result = (NativeProtobuf.Parse L ParsePart self info).2 := rfl
  have hresU : resultU
      = (NativeProtobuf.ParseWithUnknown L ParsePartWithUnknown self info).2 := rfl
  simp only [NativeProtobuf.Parse, hfound] at hres
  simp only [NativeProtobuf.ParseWithUnknown, hfound] at hresU
  refine ⟨?_, ?_, ?_, ?_⟩
  · intro hfail
    have hfail1 : (L.ParseFromCodedStream (L.GetPrototypeNew self.factory descriptor).2
        (NativeProtobuf.Parse.coded_stream info)).1 = false := hfail
    rw [hres]; simp [hfail1]
  · intro o ho
    cases hflag : parsed.1
    · have hfail1 : (L.ParseFromCodedStream (L.GetPrototypeNew self.factory descriptor).2
          (NativeProtobuf.Parse.coded_stream info)).1 = false := hflag
      rw [hres] at ho; simp [hfail1] at ho
    · have hok1 : (L.ParseFromCodedStream (L.GetPrototypeNew self.factory descriptor).2
          (NativeProtobuf.Parse.coded_stream info)).1 = true := hflag
      refine ⟨rfl, ?_⟩
      rw [hres]; simp [hok1]
  · intro hfail
    have hfail1 : (L.ParseFromCodedStream (L.GetPrototypeNew self.factory descriptor).2
        (NativeProtobuf.ParseWithUnknown.coded_stream info)).1 = false := hfail
    rw [hresU]; simp [hfail1]
  · intro o ho
    cases hflag : parsedU.1
    · have hfail1 : (L.ParseFromCodedStream (L.GetPrototypeNew self.factory descriptor).2
          (NativeProtobuf.ParseWithUnknown.coded_stream info)).1 = false := hflag
      rw [hresU] at ho; simp [hfail1] at ho
    · have hok1 : (L.ParseFromCodedStream (L.GetPrototypeNew self.factory descriptor).2
          (NativeProtobuf.ParseWithUnknown.coded_stream info)).1 = true := hflag
      refine ⟨rfl, ?_⟩
      rw [hresU]; simp [hok1]

/-- Witness for C4: the bytes `08 01 10` break off inside the field `y` of a
`geo.Point`; `parse` throws and hands back `null`, not the half-filled message. -/
theorem malformed_message_yields_no_value_witness :
    exampleLibrary.FindMessageTypeByName (exampleCodec true).pool "geo.Point"
      = some ⟨pointType, (exampleCodec true).pool⟩ ∧
    (NativeProtobuf.Parse exampleLibrary ParsePart (exampleCodec true)
      (exampleArgs [8, 1, 16] "geo.Point")).2 = ⟨some "Malformed protocol buffer", .Null⟩ :=
  ⟨rfl,
   (malformed_message_yields_no_value exampleLibrary ParsePart ParsePartWithUnknown
     (exampleCodec true) (exampleArgs [8, 1, 16] "geo.Point")
     ⟨pointType, (exampleCodec true).pool⟩ rfl).1 (by decide)⟩

/-! ## Parse: the byte limit -/

/-- An `int32_t` survives the conversion to `size_t` and back to `int`. -/
theorem size_t_round_trip (x : Int) (hlo : -2 ^ 31 ≤ x) (hhi : x < 2 ^ 31) :
    size_t_to_int (static_cast_size_t x) = x := by
  unfold size_t_to_int static_cast_size_t
  norm_num at hlo hhi ⊢
  split <;> omega

/-- An `int32_t` converts to the `size_t` zero only when it is zero. -/
theorem size_t_eq_zero_iff (x : Int) (hlo : -2 ^ 31 ≤ x) (hhi : x < 2 ^ 31) :
    static_cast_size_t x = 0 ↔ x = 0 := by
  unfold static_cast_size_t
  norm_num at hlo hhi ⊢
  omega

/-- The limit both methods install, in terms of the two `int32_t` arguments. -/
theorem installed_limit (maxBytes warnBytes : Int)
    (hmax : -2 ^ 31 ≤ maxBytes ∧ maxBytes < 2 ^ 31)
    (hwarn : -2 ^ 31 ≤ warnBytes ∧ warnBytes < 2 ^ 31) :
    (if static_cast_size_t maxBytes ≠ 0 then
        some (size_t_to_int (static_cast_size_t maxBytes),
          size_t_to_int (if static_cast_size_t warnBytes ≠ 0 then static_cast_size_t warnBytes
            else static_cast_size_t maxBytes))
      else none)
      = if maxBytes = 0 then none
        else some (maxBytes, if warnBytes ≠ 0 then warnBytes else maxBytes) := by
  have hm := size_t_eq_zero_iff maxBytes hmax.1 hmax.2
  have hw := size_t_eq_zero_iff warnBytes hwarn.1 hwarn.2
  by_cases h0 : maxBytes = 0
  · rw [if_pos h0, if_neg (not_not.mpr (hm.mpr h0))]
  · rw [if_neg h0, if_pos (fun h => h0 (hm.mp h))]
    by_cases hw0 : warnBytes = 0
    · rw [if_neg (not_not.mpr (hw.mpr hw0)), if_neg (not_not.mpr hw0),
        size_t_round_trip maxBytes hmax.1 hmax.2]
    · rw [if_pos (fun h => hw0 (hw.mp h)), if_pos hw0,
        size_t_round_trip maxBytes hmax.1 hmax.2, size_t_round_trip warnBytes hwarn.1 hwarn.2]

/-- Claim C8: for 32-bit integers `maxBytes` and `warnBytes`, the coded stream that
`parse` and `parseWithUnknown` hand to the parser reads the caller's buffer and has
no total-bytes limit installed when `maxBytes` is 0, whatever `warnBytes` is; when
`maxBytes` is not 0, `SetTotalBytesLimit` was called with the limit `maxBytes` and
the warning threshold `warnBytes`, or `maxBytes` when `warnBytes` is 0. -/
theorem byte_limit_installed (info : ParseArgs)
    (hmax : -2 ^ 31 ≤ info.maxBytes ∧ info.maxBytes < 2 ^ 31)
    (hwarn : -2 ^ 31 ≤ info.warnBytes ∧ info.warnBytes < 2 ^ 31) :
    (info.maxBytes = 0 →
      NativeProtobuf.Parse.coded_stream info = ⟨info.buffer_data, none⟩ ∧
      NativeProtobuf.ParseWithUnknown.coded_stream info = ⟨info.buffer_data, none⟩) ∧
    (info.maxBytes ≠ 0 →
      NativeProtobuf.Parse.coded_stream info = ⟨info.buffer_data,
        some (info.maxBytes, if info.warnBytes ≠ 0 then info.warnBytes else info.maxBytes)⟩ ∧
      NativeProtobuf.ParseWithUnknown.coded_stream info = ⟨info.buffer_data,
        some (info.maxBytes, if info.warnBytes ≠ 0 then info.warnBytes else info.maxBytes)⟩) := by
  have hlimit := installed_limit info.maxBytes info.warnBytes hmax hwarn
  have hP : NativeProtobuf.Parse.coded_stream info = ⟨info.buffer_data,
      if info.maxBytes = 0 then none
      else some (info.maxBytes, if info.warnBytes ≠ 0 then info.warnBytes else info.maxBytes)⟩ := by
    rw [← hlimit]
    unfold NativeProtobuf.Parse.coded_stream
    by_cases h : static_cast_size_t info.maxBytes ≠ 0
    · simp only [if_pos h]
    · simp only [if_neg h]
  have hU : NativeProtobuf.ParseWithUnknown.coded_stream info = ⟨info.buffer_data,
      if info.maxBytes = 0 then none
      else some (info.maxBytes, if info.warnBytes ≠ 0 then info.warnBytes else info.maxBytes)⟩ := by
    rw [← hlimit]
    unfold NativeProtobuf.ParseWithUnknown.coded_stream
    by_cases h : static_cast_size_t info.maxBytes ≠ 0
    · simp only [if_pos h]
    · simp only [if_neg h]
  refine ⟨fun h0 => ?_, fun h0 => ?_⟩
  · rw [hP, hU, if_pos h0]; exact ⟨rfl, rfl⟩
  · rw [hP, hU, if_neg h0]; exact ⟨rfl, rfl⟩

/-- Witness for C8: `maxBytes = 3`, `warnBytes = 0` installs the limit 3 with the
warning threshold 3. -/
theorem byte_limit_installed_witness :
    ((-2 : Int) ^ 31 ≤ 3 ∧ (3 : Int) < 2 ^ 31) ∧
    NativeProtobuf.Parse.coded_stream ⟨4, [8, 1, 16, 2], "geo.Point", 3, 0, false⟩
      = ⟨[8, 1, 16, 2], some (3, 3)⟩ :=
  ⟨by decide,
   ((byte_limit_installed ⟨4, [8, 1, 16, 2], "geo.Point", 3, 0, false⟩
      (by decide) (by decide)).2 (by decide)).1⟩

/-! ## Parse: the projection flags -/

/-- Claim C9: when the schema resolves and the parser reports success, `parse` and
`parseWithUnknown` hand back the projection of the parsed message made with
`use_typed_array = true` when fewer than five arguments were given, and with the
boolean value of the fifth argument otherwise; in both cases the `preserve_int64`
passed to the projection is the member of the object, which the constructor (and so
`New`) sets from its argument and which `parse` does not change. -/
theorem projection_flags (L : Protobuf) {Object : Type}
    (ParsePart ParsePartWithUnknown : L.Message → Bool → Bool → Object)
    (self : NativeProtobuf L) (info : ParseArgs) (descriptor : L.Descriptor)
    (hfound : L.FindMessageTypeByName self.pool info.schema_name = some descriptor)
    (hparsed : (L.ParseFromCodedStream (L.GetPrototypeNew self.factory descriptor).2
      (NativeProtobuf.Parse.coded_stream info)).1 = true) :
    let parsed := (L.ParseFromCodedStream (L.GetPrototypeNew self.factory descriptor).2
      (NativeProtobuf.Parse.coded_stream info)).2
    let result := NativeProtobuf.Parse L ParsePart self info
    let resultU := NativeProtobuf.ParseWithUnknown L ParsePartWithUnknown self info
    (info.Length < 5 →
      result.2 = ⟨none, .object (ParsePart parsed self.preserve_int64 true)⟩ ∧
      resultU.2 = ⟨none, .object (ParsePartWithUnknown parsed self.preserve_int64 true)⟩) ∧
    (5 ≤ info.Length →
      result.2 = ⟨none, .object (ParsePart parsed self.preserve_int64 info.arg4)⟩ ∧
      resultU.2 = ⟨none, .object (ParsePartWithUnknown parsed self.preserve_int64 info.arg4)⟩) ∧
    result.1.preserve_int64 = self.preserve_int64 ∧
    resultU.1.preserve_int64 = self.preserve_int64 ∧
    (∀ descriptors flag constructed,
      NativeProtobuf.ctor L descriptors flag = .object constructed →
        constructed.preserve_int64 = flag) ∧
    (∀ buffer_data flag wrapped,
      NativeProtobuf.New L buffer_data flag = .wrapped wrapped →
        wrapped.preserve_int64 = flag) := by
  intro parsed result resultU
  have hctor : ∀ descriptors flag constructed,
      NativeProtobuf.ctor L descriptors flag = .object constructed →
        constructed.preserve_int64 = flag := by
    intro descriptors flag constructed h
    unfold NativeProtobuf.ctor at h
    split at h
    · cases h; rfl
    · cases h
  have hparsedU : (L.ParseFromCodedStream (L.GetPrototypeNew self.factory descriptor).2
      (NativeProtobuf.ParseWithUnknown.coded_stream info)).1 = true := hparsed
  have hres : result = NativeProtobuf.Parse L ParsePart self info := rfl
  have hresU : resultU = NativeProtobuf.ParseWithUnknown L ParsePartWithUnknown self info := rfl
  simp only [NativeProtobuf.Parse, hfound, hparsed, if_true] at hres
  simp only [NativeProtobuf.ParseWithUnknown, hfound, hparsedU, if_true] at hresU
  refine ⟨fun hlen => ?_, fun hlen => ?_, ?_, ?_, hctor, ?_⟩
  · have hP : NativeProtobuf.Parse.use_typed_array info = true := by
      unfold NativeProtobuf.Parse.use_typed_array; rw [if_pos hlen]
    have hU : NativeProtobuf.ParseWithUnknown.use_typed_array info = true := hP
    rw [hres, hresU, hP, hU]
    exact ⟨rfl, rfl⟩
  · have hP : NativeProtobuf.Parse.use_typed_array info = info.arg4 := by
      unfold NativeProtobuf.Parse.use_typed_array; rw [if_neg (Nat.not_lt.mpr hlen)]
    have hU : NativeProtobuf.ParseWithUnknown.use_typed_array info = info.arg4 := hP
    rw [hres, hresU, hP, hU]
    exact ⟨rfl, rfl⟩
  · rw [hres]
  · rw [hresU]
  · intro buffer_data flag wrapped h
    unfold NativeProtobuf.New at h
    split at h
    · cases h
    · split at h
      · rename_i hc
        cases h
        exact hctor _ _ _ hc
      · cases h

/-- Witness for C9: `parse(buffer, "Id")` with two arguments on a codec built with
`preserve_int64 = true` projects the parsed 64-bit field as a decimal string. -/
theorem projection_flags_witness :
    exampleLibrary.FindMessageTypeByName (exampleCodec true).pool "Id"
      = some ⟨idType, (exampleCodec true).pool⟩ ∧
    (NativeProtobuf.Parse exampleLibrary ParsePart (exampleCodec true)
      (exampleArgs [8, 129, 128, 128, 128, 128, 128, 128, 16] "Id")).2
      = ⟨none, .object (.mapping [("value", .decimal 9007199254740993)])⟩ :=
  ⟨rfl,
   ((projection_flags exampleLibrary ParsePart ParsePartWithUnknown (exampleCodec true)
      (exampleArgs [8, 129, 128, 128, 128, 128, 128, 128, 16] "Id")
      ⟨idType, (exampleCodec true).pool⟩ rfl (by decide)).1 (by decide)).1⟩

/-! ## Parse and ParseWithUnknown side by side -/

/-- Claim C10: on the same object and arguments `parse` and `parseWithUnknown` leave
the same object behind and throw the same error or none (so one fails with the
unknown-schema error exactly when the other does, and likewise the malformed-message
error); an error comes with `null` from both; and when they succeed they project one
and the same parsed message with the same `preserve_int64` and `use_typed_array`,
the one through `ParsePart`, the other through `ParsePartWithUnknown`. -/
theorem parse_agrees_with_parseWithUnknown (L : Protobuf) {Object : Type}
    (ParsePart ParsePartWithUnknown : L.Message → Bool → Bool → Object)
    (self : NativeProtobuf L) (info : ParseArgs) :
    let result := NativeProtobuf.Parse L ParsePart self info
    let resultU := NativeProtobuf.ParseWithUnknown L ParsePartWithUnknown self info
    result.1 = resultU.1 ∧
    result.2.thrown = resultU.2.thrown ∧
    (result.2.thrown = some ("Unknown schema name: " ++ info.schema_name) ∨
     result.2.thrown = some "Malformed protocol buffer" ∨
     result.2.thrown = none) ∧
    (result.2.thrown ≠ none → result.2.returnValue = .Null ∧ resultU.2.returnValue = .Null) ∧
    (result.2.thrown = none →
      ∃ message,
        result.2.returnValue = .object (ParsePart message self.preserve_int64
          (if info.Length < 5 then true else info.arg4)) ∧
        resultU.2.returnValue = .object (ParsePartWithUnknown message self.preserve_int64
          (if info.Length < 5 then true else info.arg4))) := by
  intro result resultU
  have hres : result = NativeProtobuf.Parse L ParsePart self info := rfl
  have hresU : resultU = NativeProtobuf.ParseWithUnknown L ParsePartWithUnknown self info := rfl
  cases hfind : L.FindMessageTypeByName self.pool info.schema_name with
  | none =>
    simp only [NativeProtobuf.Parse, hfind] at hres
    simp only [NativeProtobuf.ParseWithUnknown, hfind] at hresU
    rw [hres, hresU]
    refine ⟨rfl, rfl, Or.inl rfl, fun _ => ⟨rfl, rfl⟩, fun h => ?_⟩
    cases h
  | some descriptor =>
    have hstream : NativeProtobuf.ParseWithUnknown.coded_stream info
        = NativeProtobuf.Parse.coded_stream info := rfl
    simp only [NativeProtobuf.Parse, hfind] at hres
    simp only [NativeProtobuf.ParseWithUnknown, hfind, hstream] at hresU
    cases hflag : (L.ParseFromCodedStream (L.GetPrototypeNew self.factory descriptor).2
        (NativeProtobuf.Parse.coded_stream info)).1
    · simp only [hflag, Bool.false_eq_true, if_false] at hres hresU
      rw [hres, hresU]
      refine ⟨rfl, rfl, Or.inr (Or.inl rfl), fun _ => ⟨rfl, rfl⟩, fun h => ?_⟩
      cases h
    · simp only [hflag, if_true] at hres hresU
      rw [hres, hresU]
      refine ⟨rfl, rfl, Or.inr (Or.inr rfl), fun h => absurd rfl h, fun _ => ?_⟩
      exact ⟨_, rfl, rfl⟩

/-! ## The constructor and Info -/

/-- Appending one computed element per index is appending the mapped list. -/
theorem foldl_append_singleton {α β : Type} (g : α → β) (l : List α) (init : List β) :
    l.foldl (fun acc i => acc ++ [g i]) init = init ++ l.map g := by
  induction l generalizing init with
  | nil => simp
  | cons a l ih => simp [ih]

/-- The inner loop of the constructor appends the names of the file's message types. -/
theorem pushMessageTypes_eq (L : Protobuf) (f : L.FileDescriptor) (info : List String) :
    pushMessageTypes L f info = info ++ messageTypeNames L f := by
  unfold pushMessageTypes messageTypeNames
  exact foldl_append_singleton (fun i => L.full_name (L.message_type f i)) _ info

/-- Once the constructor has dereferenced `NULL`, no later iteration changes that. -/
theorem ctorStep_foldl_nullDereference (L : Protobuf) (descriptors : L.FileDescriptorSet)
    (indices : List Nat) (pool : L.DescriptorPool) (info : List String) (k : Nat) :
    indices.foldl (ctorStep L descriptors) (.nullDereference pool info k)
      = .nullDereference pool info k := by
  induction indices with
  | nil => rfl
  | cons i rest ih => simpa [ctorStep] using ih

/-- The outer loop of the constructor, when it runs to its end, has built the files
in order and collected their message type names. -/
theorem ctorStep_foldl_running (L : Protobuf) (descriptors : L.FileDescriptorSet)
    (indices : List Nat) (pool pool1 : L.DescriptorPool) (info info1 : List String)
    (h : indices.foldl (ctorStep L descriptors) (.running pool info) = .running pool1 info1) :
    ∃ files, buildInOrder L (indices.map (L.file descriptors)) pool = some (pool1, files) ∧
      files.length = indices.length ∧ info1 = info ++ listTypeNames L files := by
  induction indices generalizing pool info with
  | nil =>
    simp only [List.foldl_nil] at h
    cases h
    exact ⟨[], rfl, rfl, by simp [listTypeNames]⟩
  | cons i rest ih =>
    simp only [List.foldl_cons] at h
    cases hb : L.BuildFile pool (L.file descriptors i) with
    | mk pool2 built =>
      cases built with
      | none =>
        simp only [ctorStep, hb] at h
        rw [ctorStep_foldl_nullDereference] at h
        cases h
      | some f =>
        simp only [ctorStep, hb] at h
        obtain ⟨files, hfiles, hlen, hinfo⟩ := ih pool2 _ h
        refine ⟨f :: files, ?_, ?_, ?_⟩
        · simp only [List.map_cons, buildInOrder, hb, hfiles]
        · simp [hlen]
        · rw [hinfo, pushMessageTypes_eq]
          simp [listTypeNames]

/-- The loop of `Info` copies the first `n` names. -/
theorem info_loop_eq_take (names : List String) (n : Nat) (hn : n ≤ names.length) :
    (List.range n).foldl (fun array i => Array_Set array i (names.getD i "")) []
      = names.take n := by
  induction n with
  | zero => simp
  | succ n ih =>
    have hlt : n < names.length := hn
    rw [List.range_succ, List.foldl_append, ih (Nat.le_of_lt hlt)]
    simp only [List.foldl_cons, List.foldl_nil, Array_Set, List.length_take]
    rw [if_neg (by omega)]
    rw [List.take_succ]
    simp [List.getD_eq_getElem?_getD, List.getElem?_eq_getElem hlt]

/-- When the constructor runs to its end, the files were built in input order and
`Info` returns the names of their message types. -/
theorem ctor_builds_in_order (L : Protobuf) (Object : Type)
    (descriptors : L.FileDescriptorSet) (flag : Bool) (self : NativeProtobuf L)
    (hbuilt : NativeProtobuf.ctor L descriptors flag = .object self) :
    ∃ files : List L.FileDescriptor,
      buildInOrder L (filesOf L descriptors) L.pool₀ = some (self.pool, files) ∧
      files.length = L.file_size descriptors ∧
      (NativeProtobuf.Info L self : NativeProtobuf L × CallResult Object)
        = (self, ⟨none, .array (listTypeNames L files)⟩) := by
  unfold NativeProtobuf.ctor at hbuilt
  split at hbuilt
  · rename_i pool info hloop
    cases hbuilt
    obtain ⟨files, hfiles, hlen, hinfo⟩ :=
      ctorStep_foldl_running L descriptors _ _ _ _ _ hloop
    refine ⟨files, hfiles, by simpa using hlen, ?_⟩
    simp only [NativeProtobuf.Info]
    rw [info_loop_eq_take _ _ (Nat.le_refl _), List.take_length, hinfo]
    simp
  · cases hbuilt

/-- Claim C6: when the constructor runs to its end (every file of the set was
built), `info()` returns, without an error and leaving the object as it was, an
array that equals (same length, same element at every index) the concatenation,
over the files of the descriptor set in input order, of the fully-qualified names of
each built file's message types in declaration order. -/
theorem info_lists_types_in_declaration_order (L : Protobuf) (Object : Type)
    (descriptors : L.FileDescriptorSet) (flag : Bool) (self : NativeProtobuf L)
    (hbuilt : NativeProtobuf.ctor L descriptors flag = .object self) :
    ∃ files : List L.FileDescriptor,
      buildInOrder L (filesOf L descriptors) L.pool₀ = some (self.pool, files) ∧
      files.length = L.file_size descriptors ∧
      (NativeProtobuf.Info L self : NativeProtobuf L × CallResult Object)
        = (self, ⟨none, .array (listTypeNames L files)⟩) :=
  ctor_builds_in_order L Object descriptors flag self hbuilt

/-- Witness for C6: the constructor runs to its end on the example set, and `info()`
lists the top-level types of `geo.proto` and then the one of `ids.proto`. -/
theorem info_lists_types_in_declaration_order_witness :
    NativeProtobuf.ctor exampleLibrary exampleSet true = .object (exampleCodec true) ∧
    (NativeProtobuf.Info exampleLibrary (exampleCodec true)
        : NativeProtobuf exampleLibrary × CallResult DynamicValue)
      = (exampleCodec true, ⟨none, .array ["geo.Point", "geo.Path", "Id"]⟩) := by
  refine ⟨rfl, ?_⟩
  obtain ⟨files, hfiles, _, hinfo⟩ :=
    info_lists_types_in_declaration_order exampleLibrary DynamicValue exampleSet true
      (exampleCodec true) rfl
  have hconcrete : buildInOrder exampleLibrary (filesOf exampleLibrary exampleSet)
      exampleLibrary.pool₀ = some ((exampleCodec true).pool,
        [⟨[⟨pointType, [pointType, pathType, segmentType]⟩,
           ⟨pathType, [pointType, pathType, segmentType]⟩]⟩,
         ⟨[⟨idType, [pointType, pathType, segmentType, idType]⟩]⟩]) := rfl
  rw [hconcrete] at hfiles
  cases hfiles
  exact hinfo

set_option maxRecDepth 100000 in
/-- The example codec is what `New` yields on the example bytes. -/
theorem example_codec_constructed :
    NativeProtobuf.New exampleLibrary exampleSetBytes true = .wrapped (exampleCodec true) ∧
    NativeProtobuf.New exampleLibrary exampleSetBytes false = .wrapped (exampleCodec false) := by
  constructor <;> rfl

/-- When `BuildFile` yields no file for the first file of a set that parses, `New`
neither throws nor yields an object: the constructor dereferences `NULL`. -/
theorem new_dereferences_null_of_unbuildable_first_file (L : Protobuf) (buffer_data : Bytes)
    (flag : Bool) (descriptors : L.FileDescriptorSet)
    (hparse : L.ParseFromArray buffer_data = some descriptors)
    (hsize : 0 < L.file_size descriptors)
    (hnull : (L.BuildFile L.pool₀ (L.file descriptors 0)).2 = none) :
    NativeProtobuf.New L buffer_data flag
      = .nullDereference (L.BuildFile L.pool₀ (L.file descriptors 0)).1 [] 0 := by
  obtain ⟨n, hn⟩ : ∃ n, L.file_size descriptors = n + 1 := ⟨L.file_size descriptors - 1, by omega⟩
  have hstep : ctorStep L descriptors (.running L.pool₀ []) 0
      = .nullDereference (L.BuildFile L.pool₀ (L.file descriptors 0)).1 [] 0 := by
    cases hb : L.BuildFile L.pool₀ (L.file descriptors 0) with
    | mk pool1 built =>
      rw [hb] at hnull
      cases hnull
      simp only [ctorStep, hb]
  have hloop : ctorLoop L descriptors
      = .nullDereference (L.BuildFile L.pool₀ (L.file descriptors 0)).1 [] 0 := by
    unfold ctorLoop
    rw [hn, List.range_succ_eq_map, List.foldl_cons, hstep, ctorStep_foldl_nullDereference]
  simp only [NativeProtobuf.New, hparse, NativeProtobuf.ctor, hloop]

/-- Claim C5, the code at a failing input: the descriptor set `clashingSetBytes`
parses, its second file cannot be built (it declares `A` again), and `New` ends
neither with the error "Malformed descriptor" nor with an object: the constructor
calls `message_type_count()` on the `NULL` file, with the first file's type already
in the pool and in `info`. -/
theorem new_on_unbuildable_file_dereferences_null :
    NativeProtobuf.New exampleLibrary clashingSetBytes false
      = .nullDereference [⟨"A", []⟩] ["A"] 1 := by
  rfl

/-! ## The registry and Info -/

/-- Reading a list index by index gives the list back. -/
theorem range_map_getD {α : Type} (l : List α) (d : α) :
    (List.range l.length).map (fun i => l.getD i d) = l := by
  apply List.ext_getElem
  · simp
  · intro i h1 h2
    simp [List.getD_eq_getElem?_getD, List.getElem?_eq_getElem h2]

/-- The files of a reference descriptor set are its file list. -/
theorem filesOf_reference (W : WireFormat) (descriptors : FileDescriptorSet) :
    filesOf (referenceLibrary W) descriptors = descriptors.file :=
  range_map_getD descriptors.file _

/-- The names of a reference built file are the names of its message types. -/
theorem messageTypeNames_reference (W : WireFormat) (f : BuiltFile) :
    messageTypeNames (referenceLibrary W) f = f.message_type.map (fun d => d.type.full_name) := by
  have h := congrArg (List.map (fun d : LinkedDescriptor => d.type.full_name))
    (range_map_getD f.message_type ⟨default, []⟩)
  rw [List.map_map] at h
  exact h

/-- A name fails to resolve exactly when no registered type bears it. -/
theorem lookup_eq_none_iff (pool : Registry) (name : String) :
    pool.lookup name = none ↔ name ∉ pool.map (fun t => t.full_name) := by
  unfold Registry.lookup
  rw [List.find?_eq_none]
  simp only [List.mem_map, not_exists, not_and, decide_eq_true_eq]

/-- In a registry without name clashes a registered type resolves under its name. -/
theorem lookup_of_mem_nodup (pool : Registry) (t : TypeDescriptor)
    (hnodup : (pool.map (fun t => t.full_name)).Nodup) (ht : t ∈ pool) :
    pool.lookup t.full_name = some t := by
  induction pool with
  | nil => cases ht
  | cons a rest ih =>
    rw [List.map_cons, List.nodup_cons] at hnodup
    unfold Registry.lookup
    rw [List.find?_cons]
    rcases List.mem_cons.mp ht with heq | hmem
    · subst heq; simp
    · have hne : a.full_name ≠ t.full_name := by
        intro heq
        exact hnodup.1 (heq ▸ List.mem_map_of_mem _ hmem)
      simp only [hne, decide_False]
      exact ih hnodup.2 hmem

/-- What a successful `BuildFile` of the reference registry does. -/
theorem buildFile_reference (pool pool1 : Registry) (proto : FileDescriptorProto) (f : BuiltFile)
    (h : Registry.BuildFile pool proto = (pool1, some f))
    (hnodup : (pool.map (fun t => t.full_name)).Nodup) :
    pool1 = pool ++ DescriptorProto.declaredAll proto.package proto.message_type ∧
    (pool1.map (fun t => t.full_name)).Nodup ∧
    f.message_type.map (fun d => d.type.full_name) = topLevelNames proto := by
  unfold Registry.BuildFile at h
  simp only at h
  split at h
  · rename_i hcond
    simp only [Prod.mk.injEq, Option.some.injEq] at h
    obtain ⟨hpool, hf⟩ := h
    refine ⟨hpool.symm, ?_, ?_⟩
    · rw [← hpool, List.map_append]
      refine List.Nodup.append hnodup hcond.1 ?_
      intro name hin1 hin2
      obtain ⟨t, ht, rfl⟩ := List.mem_map.mp hin2
      exact (lookup_eq_none_iff pool t.full_name).mp (hcond.2 t ht) hin1
    · rw [← hf]
      simp [topLevelNames, Function.comp_def]
  · simp at h

/-- What a successful `build` of the reference registry does: every declared type of
every file is registered, no name clashes, and the built files carry the top-level
names. -/
theorem buildInOrder_reference (W : WireFormat) (protos : List FileDescriptorProto)
    (pool pool1 : Registry) (files : List BuiltFile)
    (h : buildInOrder (referenceLibrary W) protos pool = some (pool1, files))
    (hnodup : (pool.map (fun t => t.full_name)).Nodup) :
    pool1 = pool ++ (protos.map
      (fun proto => DescriptorProto.declaredAll proto.package proto.message_type)).flatten ∧
    (pool1.map (fun t => t.full_name)).Nodup ∧
    listTypeNames (referenceLibrary W) files = (protos.map topLevelNames).flatten := by
  induction protos generalizing pool files with
  | nil =>
    simp only [buildInOrder, Option.some.injEq, Prod.mk.injEq] at h
    obtain ⟨rfl, rfl⟩ := h
    exact ⟨by simp, hnodup, by simp [listTypeNames]⟩
  | cons proto rest ih =>
    cases hb : Registry.BuildFile pool proto with
    | mk pool2 built =>
      have hb1 : (referenceLibrary W).BuildFile pool proto = (pool2, built) := hb
      cases built with
      | none => simp only [buildInOrder, hb1] at h; cases h
      | some f =>
        simp only [buildInOrder, hb1] at h
        cases hrest : buildInOrder (referenceLibrary W) rest pool2 with
        | none => simp only [hrest] at h; cases h
        | some r =>
          obtain ⟨pool3, fs⟩ := r
          simp only [hrest, Option.some.injEq, Prod.mk.injEq] at h
          obtain ⟨rfl, rfl⟩ := h
          obtain ⟨hp2, hn2, hf⟩ := buildFile_reference pool pool2 proto f hb hnodup
          obtain ⟨hp3, hn3, hfs⟩ := ih pool2 fs hrest hn2
          refine ⟨?_, hn3, ?_⟩
          · rw [hp3, hp2]; simp
          · have hnames : listTypeNames (referenceLibrary W) (f :: fs)
                = messageTypeNames (referenceLibrary W) f
                  ++ listTypeNames (referenceLibrary W) fs := by
              simp [listTypeNames]
            rw [hnames, hfs, messageTypeNames_reference, hf]
            simp

/-- Counterexample to C7 as stated: on the example set the constructor runs through
and `info()` lists `geo.Point`, `geo.Path` and `Id`; the nested type
`geo.Path.Segment` resolves in the registry but is not listed, so "resolves if and
only if listed" fails. -/
theorem nested_type_resolves_but_is_not_listed :
    NativeProtobuf.ctor exampleLibrary exampleSet true = .object (exampleCodec true) ∧
    (NativeProtobuf.Info exampleLibrary (exampleCodec true)
        : NativeProtobuf exampleLibrary × CallResult DynamicValue).2
      = ⟨none, .array ["geo.Point", "geo.Path", "Id"]⟩ ∧
    exampleLibrary.FindMessageTypeByName (exampleCodec true).pool "geo.Path.Segment"
      = some ⟨segmentType, (exampleCodec true).pool⟩ ∧
    ¬ ((exampleLibrary.FindMessageTypeByName (exampleCodec true).pool
          "geo.Path.Segment").isSome
        ↔ "geo.Path.Segment" ∈ ["geo.Point", "geo.Path", "Id"]) := by
  refine ⟨rfl, rfl, rfl, ?_⟩
  intro h
  have hlisted := h.mp rfl
  revert hlisted
  decide

/-- Claim C7, amended: when the constructor runs through on the reference library,
every message type the descriptor set declares, nested types included, resolves in
the registry under its fully-qualified name; `info()` lists the top-level message
types only, in declaration order; so every name `info()` lists resolves in the
registry (the converse fails for nested types). -/
theorem declared_types_resolve_and_info_lists_top_level (W : WireFormat)
    (descriptors : FileDescriptorSet) (flag : Bool)
    (self : NativeProtobuf (referenceLibrary W))
    (hbuilt : NativeProtobuf.ctor (referenceLibrary W) descriptors flag = .object self) :
    (∀ proto ∈ descriptors.file,
      ∀ t ∈ DescriptorProto.declaredAll proto.package proto.message_type,
        (referenceLibrary W).FindMessageTypeByName self.pool t.full_name
          = some ⟨t, self.pool⟩) ∧
    (NativeProtobuf.Info (referenceLibrary W) self
        : NativeProtobuf (referenceLibrary W) × CallResult DynamicValue).2
      = ⟨none, .array (descriptors.file.map topLevelNames).flatten⟩ ∧
    (∀ name ∈ (descriptors.file.map topLevelNames).flatten,
      ∃ d, (referenceLibrary W).FindMessageTypeByName self.pool name = some d) := by
  obtain ⟨files, hfiles, _, hinfo⟩ :=
    ctor_builds_in_order (referenceLibrary W) DynamicValue descriptors flag self hbuilt
  rw [filesOf_reference] at hfiles
  obtain ⟨hpool, hnodup, hnames⟩ :=
    buildInOrder_reference W descriptors.file [] self.pool files hfiles (by simp)
  have hresolve : ∀ proto ∈ descriptors.file,
      ∀ t ∈ DescriptorProto.declaredAll proto.package proto.message_type,
        (referenceLibrary W).FindMessageTypeByName self.pool t.full_name
          = some ⟨t, self.pool⟩ := by
    intro proto hproto t ht
    have hmem : ∀ pool : Registry, pool = [] ++ (descriptors.file.map (fun proto =>
        DescriptorProto.declaredAll proto.package proto.message_type)).flatten → t ∈ pool := by
      intro pool hp
      rw [hp]
      simp only [List.nil_append, List.mem_flatten, List.mem_map]
      exact ⟨_, ⟨proto, hproto, rfl⟩, ht⟩
    show (Registry.lookup self.pool t.full_name).map
        (fun t => (⟨t, self.pool⟩ : LinkedDescriptor)) = some ⟨t, self.pool⟩
    rw [lookup_of_mem_nodup self.pool t hnodup (hmem self.pool hpool)]
    rfl
  refine ⟨hresolve, ?_, ?_⟩
  · rw [hinfo, hnames]
  · intro name hname
    simp only [List.mem_flatten, List.mem_map] at hname
    obtain ⟨names, ⟨proto, hproto, rfl⟩, hin⟩ := hname
    simp only [topLevelNames, List.mem_map] at hin
    obtain ⟨d, hd, rfl⟩ := hin
    have hdecl : (⟨qualify proto.package d.name, d.field⟩ : TypeDescriptor)
        ∈ DescriptorProto.declaredAll proto.package proto.message_type := by
      have : ∀ ds : List DescriptorProto, d ∈ ds →
          (⟨qualify proto.package d.name, d.field⟩ : TypeDescriptor)
            ∈ DescriptorProto.declaredAll proto.package ds := by
        intro ds
        induction ds with
        | nil => intro h; cases h
        | cons a rest ih =>
          intro h
          rw [DescriptorProto.declaredAll]
          rcases List.mem_cons.mp h with heq | hmem
          · subst heq
            cases d with
            | mk name field nested =>
              simp [DescriptorProto.declared, DescriptorProto.name, DescriptorProto.field]
          · exact List.mem_append_right _ (ih hmem)
      exact this _ hd
    exact ⟨_, hresolve proto hproto _ hdecl⟩

/-- Witness for C7 (amended): on the example set the nested type `geo.Path.Segment`
resolves and `info()` lists the three top-level types. -/
theorem declared_types_resolve_and_info_lists_top_level_witness :
    NativeProtobuf.ctor exampleLibrary exampleSet false = .object (exampleCodec false) ∧
    exampleLibrary.FindMessageTypeByName (exampleCodec false).pool "geo.Path.Segment"
      = some ⟨segmentType, (exampleCodec false).pool⟩ ∧
    (NativeProtobuf.Info exampleLibrary (exampleCodec false)
        : NativeProtobuf exampleLibrary × CallResult DynamicValue).2
      = ⟨none, .array ["geo.Point", "geo.Path", "Id"]⟩ :=
  ⟨rfl,
   (declared_types_resolve_and_info_lists_top_level exampleWire exampleSet false
      (exampleCodec false) rfl).1 _ (List.mem_cons_self _ _) segmentType (by decide),
   (declared_types_resolve_and_info_lists_top_level exampleWire exampleSet false
      (exampleCodec false) rfl).2.1⟩

/-! ## Round trip -/

/-- An integer in the range of its kind is coerced to itself. -/
theorem coerceInt_of_inRange (k : SemanticKind) (n : Int) (h : k.inRange n = true) :
    k.coerceInt n = n := by
  cases k <;> simp only [SemanticKind.inRange, SemanticKind.coerceInt, decide_eq_true_eq] at h ⊢ <;>
    (norm_num at h ⊢; omega)

/-- In a list whose keys are unique, searching for the key of a member finds it. -/
theorem find?_of_mem_nodup_map {α β : Type} [DecidableEq β] (f : α → β) (l : List α) (a : α)
    (hnodup : (l.map f).Nodup) (ha : a ∈ l) :
    l.find? (fun x => f x = f a) = some a := by
  induction l with
  | nil => cases ha
  | cons b rest ih =>
    rw [List.map_cons, List.nodup_cons] at hnodup
    rw [List.find?_cons]
    rcases List.mem_cons.mp ha with heq | hmem
    · subst heq; simp
    · have hne : f b ≠ f a := by
        intro heq
        exact hnodup.1 (heq ▸ List.mem_map_of_mem _ hmem)
      simp only [hne, decide_False]
      exact ih hnodup.2 hmem

/-- A field found by name bears that name and is found by its number. -/
theorem byNumber_of_byName (T : TypeDescriptor) (key : String) (fd : FieldDescriptor)
    (hwf : T.wellFormed = true) (h : T.byName key = some fd) :
    fd.name = key ∧ T.byNumber fd.number = some fd := by
  unfold TypeDescriptor.byName at h
  have hname : fd.name = key := by simpa using List.find?_some h
  have hmem : fd ∈ T.fields := List.mem_of_find?_eq_some h
  simp only [TypeDescriptor.wellFormed, Bool.and_eq_true, decide_eq_true_eq] at hwf
  exact ⟨hname,
    find?_of_mem_nodup_map (fun fd : FieldDescriptor => fd.number) T.fields fd hwf.2 hmem⟩

/-- A field found by number bears that number and is found by its name. -/
theorem byName_of_byNumber (T : TypeDescriptor) (n : Nat) (fd : FieldDescriptor)
    (hwf : T.wellFormed = true) (h : T.byNumber n = some fd) :
    fd.number = n ∧ T.byName fd.name = some fd := by
  unfold TypeDescriptor.byNumber at h
  have hnum : fd.number = n := by simpa using List.find?_some h
  have hmem : fd ∈ T.fields := List.mem_of_find?_eq_some h
  simp only [TypeDescriptor.wellFormed, Bool.and_eq_true, decide_eq_true_eq] at hwf
  exact ⟨hnum,
    find?_of_mem_nodup_map (fun fd : FieldDescriptor => fd.name) T.fields fd hwf.1 hmem⟩

/-- A field of a well-formed type is found by its name. -/
theorem byName_of_mem (T : TypeDescriptor) (fd : FieldDescriptor)
    (hwf : T.wellFormed = true) (hmem : fd ∈ T.fields) : T.byName fd.name = some fd := by
  simp only [TypeDescriptor.wellFormed, Bool.and_eq_true, decide_eq_true_eq] at hwf
  exact find?_of_mem_nodup_map (fun fd : FieldDescriptor => fd.name) T.fields fd hwf.1 hmem

/-- A type the registry resolves satisfies the invariant of the registry. -/
theorem wellFormed_of_lookup (pool : Registry) (name : String) (T : TypeDescriptor)
    (hpool : Registry.wellFormed pool = true) (h : Registry.lookup pool name = some T) :
    T.wellFormed = true := by
  unfold Registry.wellFormed at hpool
  rw [List.all_eq_true] at hpool
  exact hpool T (List.mem_of_find?_eq_some h)

/-- Setting a field that has no value yet puts it last. -/
theorem setField_of_not_present (number : Nat) (w : FieldValue)
    (fields : List (Nat × FieldValue)) (h : number ∉ fieldsPresent fields) :
    setField number w fields = fields ++ [(number, w)] := by
  induction fields with
  | nil => rfl
  | cons e rest ih =>
    obtain ⟨n, v⟩ := e
    simp only [fieldsPresent, List.map_cons, List.mem_cons, not_or] at h
    have hne : ¬ n = number := fun heq => h.1 heq.symm
    simp only [setField, hne, if_false, List.cons_append]
    rw [ih h.2]

/-- A field value equal to an integer, a native number, a boolean, a string or a byte
sequence is that value. -/
theorem FieldValue.eq_of_sameAs_scalar (w w1 : FieldValue)
    (hscalar : ∀ fields unknown, w ≠ .message fields unknown)
    (hsingle : ∀ items, w ≠ .repeated items)
    (h : w.sameAs w1 = true) : w1 = w := by
  cases w with
  | message fields unknown => exact absurd rfl (hscalar fields unknown)
  | repeated items => exact absurd rfl (hsingle items)
  | integer a => cases w1 <;> simp_all [FieldValue.sameAs]
  | float a => cases w1 <;> simp_all [FieldValue.sameAs]
  | boolean a => cases w1 <;> simp_all [FieldValue.sameAs]
  | string a => cases w1 <;> simp_all [FieldValue.sameAs]
  | bytes a => cases w1 <;> simp_all [FieldValue.sameAs]

/-- A native number that a numeric kind holds is stored as it stands: as the integer
it is, which reads back as the number, or as the number itself. -/
theorem coerceNumber_of_holds (k : SemanticKind) (x : Native) (h : k.holds x = true) :
    (coerceNumber k x = some (.integer x.toInt) ∧ Native.ofInt x.toInt = x ∧
      Native.ofIntRounded x.toInt = x) ∨
    coerceNumber k x = some (.float x) := by
  simp only [SemanticKind.holds, Bool.and_eq_true, Native.isDouble, decide_eq_true_eq] at h
  obtain ⟨hdouble, hkind⟩ := h
  have hint : ∀ k : SemanticKind, (x.isInteger && k.inRange x.toInt) = true →
      coerceNumber k x = some (.integer (k.coerceInt x.toInt)) →
      coerceNumber k x = some (.integer x.toInt) ∧ Native.ofInt x.toInt = x ∧
        Native.ofIntRounded x.toInt = x := by
    intro k hk hc
    simp only [Bool.and_eq_true, Native.isInteger, decide_eq_true_eq] at hk
    rw [coerceInt_of_inRange k _ hk.2] at hc
    refine ⟨hc, hk.1.symm, ?_⟩
    unfold Native.ofIntRounded
    rw [← hk.1]
    exact hdouble
  cases k
  case double => exact Or.inr rfl
  case float =>
    right
    simp only [decide_eq_true_eq] at hkind
    simp only [coerceNumber, hkind]
  all_goals first
    | exact Or.inl (hint _ hkind rfl)
    | (simp [SemanticKind.inRange] at hkind)

/-- A field of the first of two handles with equal fields has an equal value in the
second. -/
theorem sameFields_mem (fs gs : List (Nat × FieldValue))
    (h : FieldValue.sameFields fs gs = true) (n : Nat) (w : FieldValue) (hmem : (n, w) ∈ fs) :
    ∃ w1, lookupField n gs = some w1 ∧ w.sameAs w1 = true := by
  induction fs with
  | nil => cases hmem
  | cons e rest ih =>
    obtain ⟨m, v⟩ := e
    simp only [FieldValue.sameFields, Bool.and_eq_true] at h
    rcases List.mem_cons.mp hmem with heq | hrest
    · cases heq
      cases hl : lookupField n gs with
      | none => rw [hl] at h; exact absurd h.1 (by simp)
      | some w1 => rw [hl] at h; exact ⟨w1, rfl, h.1⟩
    · exact ih h.2 hrest

/-- A field number with a value is among the fields present. -/
theorem mem_fieldsPresent_of_lookupField (n : Nat) (gs : List (Nat × FieldValue))
    (w : FieldValue) (h : lookupField n gs = some w) : n ∈ fieldsPresent gs := by
  unfold lookupField at h
  cases hf : gs.find? (fun e => e.1 = n) with
  | none => rw [hf] at h; cases h
  | some e =>
    have hn : e.1 = n := by simpa using List.find?_some hf
    have hmem : e ∈ gs := List.mem_of_find?_eq_some hf
    exact hn ▸ List.mem_map_of_mem _ hmem

/-- Entries that all have an equal value under their key in a second mapping. -/
theorem sameEntries_of_forall (es fs : List (String × DynamicValue))
    (h : ∀ e ∈ es, ∃ r, lookupEntry e.1 fs = some r ∧ e.2.sameAs r = true) :
    DynamicValue.sameEntries es fs = true := by
  induction es with
  | nil => simp [DynamicValue.sameEntries]
  | cons e rest ih =>
    obtain ⟨key, v⟩ := e
    obtain ⟨r, hr, hsame⟩ := h (key, v) (List.mem_cons_self _ _)
    simp only [DynamicValue.sameEntries, Bool.and_eq_true]
    refine ⟨?_, ih (fun e he => h e (List.mem_cons_of_mem _ he))⟩
    simp only at hr
    rw [hr]
    exact hsame

/-- The projection of a handle holds, under the name of a field, the projection of
the value the handle holds for the number of the field. -/
theorem lookupEntry_projectFields (pool : Registry) (p u wu : Bool) (T : TypeDescriptor)
    (hwf : T.wellFormed = true) (fd : FieldDescriptor)
    (hfd : T.byNumber fd.number = some fd) (gs : List (Nat × FieldValue)) (w1 : FieldValue)
    (h : lookupField fd.number gs = some w1) :
    lookupEntry fd.name (projectFields pool p u wu T gs)
      = some (projectValue pool p u wu fd w1) := by
  induction gs with
  | nil => simp [lookupField] at h
  | cons e rest ih =>
    obtain ⟨n, w⟩ := e
    by_cases hn : n = fd.number
    · subst hn
      simp only [lookupField, List.find?_cons, decide_True] at h
      cases h
      simp only [projectFields, hfd, lookupEntry, List.find?_cons, decide_True]
    · have hrest : lookupField fd.number rest = some w1 := by
        simpa [lookupField, List.find?_cons, hn] using h
      cases hb : T.byNumber n with
      | none =>
        simp only [projectFields, hb]
        exact ih hrest
      | some fd1 =>
        have h1 := byName_of_byNumber T n fd1 hwf hb
        have h2 := byName_of_byNumber T fd.number fd hwf hfd
        have hname : ¬ fd1.name = fd.name := by
          intro heq
          rw [heq, h2.2] at h1
          have : fd = fd1 := Option.some.inj h1.2
          subst this
          exact hn h1.1.symm
        have := ih hrest
        simp only [projectFields, hb, lookupEntry, List.find?_cons, hname, decide_False]
        exact this

/-- The projection has an entry for every field of the handle that the type declares. -/
theorem length_projectFields (pool : Registry) (p u wu : Bool) (T : TypeDescriptor)
    (gs : List (Nat × FieldValue))
    (h : ∀ n ∈ fieldsPresent gs, ∃ fd, T.byNumber n = some fd) :
    (projectFields pool p u wu T gs).length = gs.length := by
  induction gs with
  | nil => rfl
  | cons e rest ih =>
    obtain ⟨n, w⟩ := e
    obtain ⟨fd, hfd⟩ := h n (by simp [fieldsPresent])
    simp only [projectFields, hfd, List.length_cons]
    rw [ih (fun m hm => h m (by
      simp only [fieldsPresent, List.map_cons, List.mem_cons]
      exact Or.inr hm))]

/-- A list without duplicates that lies within a list that is not longer has all the
members of that list. -/
theorem subset_of_nodup_of_length_le {α : Type} [DecidableEq α] (l1 l2 : List α)
    (hnodup : l1.Nodup) (hsub : ∀ a ∈ l1, a ∈ l2) (hlen : l2.length ≤ l1.length) :
    ∀ a ∈ l2, a ∈ l1 := by
  have hperm : l1.Perm l2 :=
    (List.subperm_of_subset hnodup hsub).perm_of_length_le hlen
  exact fun a ha => hperm.symm.subset ha

/-- A repeated field of integers and native numbers is equal only to itself. -/
theorem sameItems_scalar (ws ys : List FieldValue)
    (hscalar : ∀ w ∈ ws, (∃ n, w = .integer n) ∨ (∃ x, w = .float x))
    (h : FieldValue.sameItems ws ys = true) : ys = ws := by
  induction ws generalizing ys with
  | nil => cases ys <;> simp_all [FieldValue.sameItems]
  | cons w rest ih =>
    cases ys with
    | nil => simp [FieldValue.sameItems] at h
    | cons y ys1 =>
      simp only [FieldValue.sameItems, Bool.and_eq_true] at h
      have hw : y = w := by
        apply FieldValue.eq_of_sameAs_scalar w y _ _ h.1
        · intro fields unknown hc
          rcases hscalar w (List.mem_cons_self _ _) with ⟨n, hn⟩ | ⟨x, hx⟩ <;> simp_all
        · intro items hc
          rcases hscalar w (List.mem_cons_self _ _) with ⟨n, hn⟩ | ⟨x, hx⟩ <;> simp_all
      rw [hw, ih ys1 (fun w1 h1 => hscalar w1 (List.mem_cons_of_mem _ h1)) h.2]

/-- The elements of a packed buffer that the kind holds are all stored, as integers
or native numbers that read back as the elements. -/
theorem filterMap_coerceNumber_of_holds (k : SemanticKind) (elements : List Native)
    (h : elements.all k.holds = true) :
    (elements.filterMap (coerceNumber k)).length = elements.length ∧
    (elements.filterMap (coerceNumber k)).map numberOf = elements ∧
    ∀ w ∈ elements.filterMap (coerceNumber k), (∃ n, w = .integer n) ∨ (∃ x, w = .float x) := by
  induction elements with
  | nil => simp
  | cons x rest ih =>
    simp only [List.all_cons, Bool.and_eq_true] at h
    obtain ⟨hlen, hmap, hscalar⟩ := ih h.2
    rcases coerceNumber_of_holds k x h.1 with ⟨hc, hx, _⟩ | hc
    · rw [List.filterMap_cons, hc]
      refine ⟨by simp [hlen], by simp [numberOf, hx, hmap], ?_⟩
      intro w hw
      rcases List.mem_cons.mp hw with heq | hrest
      · exact Or.inl ⟨_, heq⟩
      · exact hscalar w hrest
    · rw [List.filterMap_cons, hc]
      refine ⟨by simp [hlen], by simp [numberOf, hmap], ?_⟩
      intro w hw
      rcases List.mem_cons.mp hw with heq | hrest
      · exact Or.inr ⟨_, heq⟩
      · exact hscalar w hrest

/-- Two names of a well-formed type that resolve to fields of the same number are the
same name. -/
theorem key_eq_of_number_eq (T : TypeDescriptor) (hwf : T.wellFormed = true)
    (k1 k2 : String) (fd1 fd2 : FieldDescriptor)
    (h1 : T.byName k1 = some fd1) (h2 : T.byName k2 = some fd2)
    (hnum : fd1.number = fd2.number) : k1 = k2 := by
  have a1 := byNumber_of_byName T k1 fd1 hwf h1
  have a2 := byNumber_of_byName T k2 fd2 hwf h2
  rw [hnum, a2.2] at a1
  have : fd2 = fd1 := Option.some.inj a1.2
  subst this
  rw [← a1.1, ← a2.1]

/-- A list whose elements conform and make the round trip populates the repeated
field with as many elements, and the projection of an equal repeated field is
equal to the list. -/
theorem coerceItems_spec (pool : Registry) (p u : Bool) (fd : FieldDescriptor)
    (items : List DynamicValue)
    (hall : ∀ v ∈ items, RoundTripsAt pool p u v)
    (hconf : conformsItems pool p u fd items = true) :
    (coerceItems pool p fd items).length = items.length ∧
    (∀ ys, FieldValue.sameItems (coerceItems pool p fd items) ys = true →
      DynamicValue.sameItems items (projectItems pool p u false fd ys) = true) := by
  induction items with
  | nil =>
    refine ⟨rfl, ?_⟩
    intro ys h
    cases ys with
    | nil => simp [projectItems, DynamicValue.sameItems]
    | cons y rest => simp [coerceItems, FieldValue.sameItems] at h
  | cons v vs ih =>
    simp only [conformsItems, Bool.and_eq_true] at hconf
    obtain ⟨w, hw, hsame, _⟩ := hall v (List.mem_cons_self _ _) fd false hconf.1
    obtain ⟨hlen, hrest⟩ := ih (fun x hx => hall x (List.mem_cons_of_mem _ hx)) hconf.2
    simp only [coerceItems, hw]
    refine ⟨by simp [hlen], ?_⟩
    intro ys h
    cases ys with
    | nil => simp [FieldValue.sameItems] at h
    | cons y rest =>
      simp only [FieldValue.sameItems, Bool.and_eq_true] at h
      simp only [projectItems, DynamicValue.sameItems, Bool.and_eq_true]
      exact ⟨hsame y h.1, hrest rest h.2⟩

/-- The walk of a mapping that conforms, entry by entry: every entry sets one field
that had no value, the projection of an equal field value is equal to the value of
the entry, the fields set have distinct numbers, and they pass the validation of
the nested required messages when the entries have their required fields. -/
theorem walkEntries_spec (pool : Registry) (p u : Bool) (T : TypeDescriptor)
    (hwf : T.wellFormed = true) (entries : List (String × DynamicValue))
    (hall : ∀ e ∈ entries, RoundTripsAt pool p u e.2)
    (hconf : conformsEntries pool p u T entries = true)
    (hkeys : (entries.map (fun e => e.1)).Nodup)
    (acc : List (Nat × FieldValue))
    (hfresh : ∀ e ∈ entries, ∀ fd, T.byName e.1 = some fd → fd.number ∉ fieldsPresent acc) :
    ∃ added, walkEntries pool p T entries acc = acc ++ added ∧
      added.length = entries.length ∧
      (∀ e ∈ entries, ∃ fd w, T.byName e.1 = some fd ∧ (fd.number, w) ∈ added ∧
        ∀ w1, w.sameAs w1 = true →
          e.2.sameAs (projectValue pool p u false fd w1) = true) ∧
      (∀ a ∈ added, ∃ e ∈ entries, ∃ fd, T.byName e.1 = some fd ∧ a.1 = fd.number) ∧
      (fieldsPresent added).Nodup ∧
      (hasRequiredEntries pool T entries = true → requiredSetFields pool T added = true) := by
  induction entries generalizing acc with
  | nil =>
    exact ⟨[], by simp [walkEntries], rfl, fun e he => (by cases he), fun a ha => (by cases ha),
      by simp [fieldsPresent], fun _ => (by simp [requiredSetFields])⟩
  | cons e rest ih =>
    obtain ⟨key, v⟩ := e
    simp only [conformsEntries, Bool.and_eq_true] at hconf
    rw [List.map_cons, List.nodup_cons] at hkeys
    cases hfd : T.byName key with
    | none => rw [hfd] at hconf; exact absurd hconf.1 (by simp)
    | some fd =>
      rw [hfd] at hconf
      obtain ⟨w, hw, hsame, hreq⟩ :=
        hall (key, v) (List.mem_cons_self _ _) fd (decide (fd.cardinality = .repeated)) hconf.1
      have hnum := byNumber_of_byName T key fd hwf hfd
      have hdistinct : ∀ e ∈ rest, ∀ fd1, T.byName e.1 = some fd1 → fd1.number ≠ fd.number := by
        intro e he fd1 h1 heq
        have := key_eq_of_number_eq T hwf e.1 key fd1 fd h1 hfd heq
        exact hkeys.1 (this ▸ List.mem_map_of_mem (fun e => e.1) he)
      have hset : setField fd.number w acc = acc ++ [(fd.number, w)] :=
        setField_of_not_present fd.number w acc (hfresh (key, v) (List.mem_cons_self _ _) fd hfd)
      obtain ⟨added, hwalk, hlen, hentries, hadded, hnodup, hrequired⟩ :=
        ih (fun e he => hall e (List.mem_cons_of_mem _ he)) hconf.2 hkeys.2
          (acc ++ [(fd.number, w)]) (by
            intro e he fd1 h1
            simp only [fieldsPresent, List.map_append, List.map_cons, List.map_nil,
              List.mem_append, List.mem_singleton, not_or]
            exact ⟨hfresh e (List.mem_cons_of_mem _ he) fd1 h1, hdistinct e he fd1 h1⟩)
      refine ⟨(fd.number, w) :: added, ?_, by simp [hlen], ?_, ?_, ?_, ?_⟩
      · simp only [walkEntries, hfd, hw, hset, hwalk, List.append_assoc, List.singleton_append]
      · intro e he
        rcases List.mem_cons.mp he with heq | hrest
        · subst heq
          exact ⟨fd, w, hfd, List.mem_cons_self _ _, hsame⟩
        · obtain ⟨fd1, w1, h1, hmem, hs⟩ := hentries e hrest
          exact ⟨fd1, w1, h1, List.mem_cons_of_mem _ hmem, hs⟩
      · intro a ha
        rcases List.mem_cons.mp ha with heq | hrest
        · subst heq
          exact ⟨(key, v), List.mem_cons_self _ _, fd, hfd, rfl⟩
        · obtain ⟨e, he, fd1, h1, hn⟩ := hadded a hrest
          exact ⟨e, List.mem_cons_of_mem _ he, fd1, h1, hn⟩
      · simp only [fieldsPresent, List.map_cons, List.nodup_cons]
        refine ⟨?_, hnodup⟩
        intro hin
        obtain ⟨a, ha, hn⟩ := List.mem_map.mp hin
        obtain ⟨e, he, fd1, h1, hn1⟩ := hadded a ha
        exact hdistinct e he fd1 h1 (by rw [← hn1, hn])
      · intro hr
        simp only [hasRequiredEntries, hfd, Bool.and_eq_true] at hr
        simp only [requiredSetFields, hnum.2, Bool.and_eq_true, Bool.or_eq_true]
        exact ⟨Or.inr (hreq hr.1), hrequired hr.2⟩

/-- A mapping that the walk has stored field by field is equal to the projection of
every handle that holds equal values for the same fields. -/
theorem mapping_sameAs_projectFields (pool : Registry) (p u : Bool) (T : TypeDescriptor)
    (hwf : T.wellFormed = true) (entries : List (String × DynamicValue))
    (added gs : List (Nat × FieldValue))
    (hlen : added.length = entries.length)
    (hentries : ∀ e ∈ entries, ∃ fd w, T.byName e.1 = some fd ∧ (fd.number, w) ∈ added ∧
        ∀ w1, w.sameAs w1 = true →
          e.2.sameAs (projectValue pool p u false fd w1) = true)
    (hadded : ∀ a ∈ added, ∃ e ∈ entries, ∃ fd, T.byName e.1 = some fd ∧ a.1 = fd.number)
    (hnodup : (fieldsPresent added).Nodup)
    (hglen : added.length = gs.length)
    (hsame : FieldValue.sameFields added gs = true) :
    (DynamicValue.mapping entries).sameAs
      (.mapping (projectFields pool p u false T gs)) = true := by
  have hsub : ∀ n ∈ fieldsPresent added, n ∈ fieldsPresent gs := by
    intro n hn
    obtain ⟨a, ha, han⟩ := List.mem_map.mp hn
    obtain ⟨m, w⟩ := a
    simp only at han
    subst han
    obtain ⟨w1, hl, _⟩ := sameFields_mem added gs hsame m w ha
    exact mem_fieldsPresent_of_lookupField m gs w1 hl
  have hrev := subset_of_nodup_of_length_le (fieldsPresent added) (fieldsPresent gs) hnodup hsub
    (by simp [fieldsPresent, hglen])
  have hresolve : ∀ n ∈ fieldsPresent gs, ∃ fd, T.byNumber n = some fd := by
    intro n hn
    obtain ⟨a, ha, han⟩ := List.mem_map.mp (hrev n hn)
    obtain ⟨e, _, fd, hfd, hnum⟩ := hadded a ha
    refine ⟨fd, ?_⟩
    rw [← han, hnum]
    exact (byNumber_of_byName T e.1 fd hwf hfd).2
  have hplen := length_projectFields pool p u false T gs hresolve
  have hes : DynamicValue.sameEntries entries (projectFields pool p u false T gs) = true := by
    apply sameEntries_of_forall
    intro e he
    obtain ⟨fd, w, hfd, hmem, hs⟩ := hentries e he
    obtain ⟨w1, hl, hw1⟩ := sameFields_mem added gs hsame fd.number w hmem
    have hn := byNumber_of_byName T e.1 fd hwf hfd
    refine ⟨projectValue pool p u false fd w1, ?_, hs w1 hw1⟩
    rw [← hn.1]
    exact lookupEntry_projectFields pool p u false T hwf fd hn.2 gs w1 hl
  simp only [DynamicValue.sameAs, Bool.and_eq_true, beq_iff_eq]
  exact ⟨by rw [hplen, ← hglen, hlen], hes⟩

/-- The fields the walk has set include every required field whose name is a key. -/
theorem requiredPresent_of_requiredKeys (pool : Registry) (p u : Bool) (T : TypeDescriptor)
    (hwf : T.wellFormed = true) (entries : List (String × DynamicValue))
    (added : List (Nat × FieldValue))
    (hentries : ∀ e ∈ entries, ∃ fd w, T.byName e.1 = some fd ∧ (fd.number, w) ∈ added ∧
        ∀ w1, w.sameAs w1 = true →
          e.2.sameAs (projectValue pool p u false fd w1) = true)
    (hkeys : requiredKeys T entries = true) :
    requiredPresent T (fieldsPresent added) = true := by
  simp only [requiredKeys, List.all_eq_true, Bool.or_eq_true, List.contains_iff_exists_mem_beq,
    beq_iff_eq] at hkeys
  simp only [requiredPresent, List.all_eq_true, Bool.or_eq_true,
    List.contains_iff_exists_mem_beq, beq_iff_eq]
  intro fd hfd
  rcases hkeys fd hfd with hopt | ⟨key, hkey, hname⟩
  · exact Or.inl hopt
  · right
    obtain ⟨e, he, hek⟩ := List.mem_map.mp hkey
    obtain ⟨fd1, w, h1, hmem, _⟩ := hentries e he
    have hb := byName_of_mem T fd hwf hfd
    rw [hname, ← hek, h1] at hb
    have : fd1 = fd := Option.some.inj hb
    subst this
    exact ⟨fd1.number, List.mem_map_of_mem (fun e => e.1) hmem, rfl⟩

mutual
/-- Every structured value makes the round trip at every field it conforms to, in a
registry whose types have unique field names and numbers. -/
theorem roundTripsAt_value (pool : Registry) (p u : Bool)
    (hpool : Registry.wellFormed pool = true) : ∀ v : DynamicValue, RoundTripsAt pool p u v
  | .null => fun fd rep h => by simp [conforms] at h
  | .unknownFields _ => fun fd rep h => by simp [conforms] at h
  | .boolean b => fun fd rep h => by
    simp only [conforms, Bool.and_eq_true, Bool.not_eq_true', decide_eq_true_eq] at h
    refine ⟨.boolean b, by simp [coerce, h.1, h.2], ?_, fun _ => by simp [requiredSetValue]⟩
    intro w1 hw1
    rw [FieldValue.eq_of_sameAs_scalar _ w1 (by simp) (by simp) hw1]
    simp [projectValue, DynamicValue.sameAs]
  | .string s => fun fd rep h => by
    simp only [conforms, Bool.and_eq_true, Bool.not_eq_true', decide_eq_true_eq] at h
    refine ⟨.string s, by simp [coerce, h.1, h.2], ?_, fun _ => by simp [requiredSetValue]⟩
    intro w1 hw1
    rw [FieldValue.eq_of_sameAs_scalar _ w1 (by simp) (by simp) hw1]
    simp [projectValue, DynamicValue.sameAs]
  | .bytes b => fun fd rep h => by
    simp only [conforms, Bool.and_eq_true, Bool.not_eq_true', decide_eq_true_eq] at h
    refine ⟨.bytes b, by simp [coerce, h.1, h.2], ?_, fun _ => by simp [requiredSetValue]⟩
    intro w1 hw1
    rw [FieldValue.eq_of_sameAs_scalar _ w1 (by simp) (by simp) hw1]
    simp [projectValue, DynamicValue.sameAs]
  | .number x => fun fd rep h => by
    simp only [conforms, Bool.and_eq_true, Bool.not_eq_true', Bool.or_eq_true] at h
    obtain ⟨⟨hrep, hholds⟩, h64⟩ := h
    have hplain : (fd.kind.is64 && p) = false := by
      rcases h64 with h64 | hp
      · simp [h64]
      · simp [hp]
    rcases coerceNumber_of_holds fd.kind x hholds with ⟨hc, hx, hrounded⟩ | hc
    · refine ⟨.integer x.toInt, by simp [coerce, hrep, hc], ?_,
        fun _ => by simp [requiredSetValue]⟩
      intro w1 hw1
      rw [FieldValue.eq_of_sameAs_scalar _ w1 (by simp) (by simp) hw1]
      simp only [projectValue]
      cases h64k : fd.kind.is64
      · simp [DynamicValue.sameAs, hx]
      · have hp : p = false := by simpa [h64k] using hplain
        simp [DynamicValue.sameAs, hp, hrounded]
    · refine ⟨.float x, by simp [coerce, hrep, hc], ?_, fun _ => by simp [requiredSetValue]⟩
      intro w1 hw1
      rw [FieldValue.eq_of_sameAs_scalar _ w1 (by simp) (by simp) hw1]
      simp [projectValue, DynamicValue.sameAs]
  | .decimal n => fun fd rep h => by
    simp only [conforms, Bool.and_eq_true, Bool.not_eq_true', decide_eq_true_eq] at h
    obtain ⟨⟨⟨hrep, h64⟩, hp⟩, hrange⟩ := h
    refine ⟨.integer n, by simp [coerce, hrep, h64, coerceInt_of_inRange fd.kind n hrange], ?_,
      fun _ => by simp [requiredSetValue]⟩
    intro w1 hw1
    rw [FieldValue.eq_of_sameAs_scalar _ w1 (by simp) (by simp) hw1]
    simp [projectValue, DynamicValue.sameAs, h64, hp]
  | .packed kind elements => fun fd rep h => by
    simp only [conforms, Bool.and_eq_true, Bool.not_eq_true', decide_eq_true_eq] at h
    obtain ⟨⟨⟨⟨⟨hrep, hu⟩, hfixed⟩, hkind⟩, hne⟩, hholds⟩ := h
    obtain ⟨hlen, hmap, hscalar⟩ := filterMap_coerceNumber_of_holds fd.kind elements hholds
    cases hws : elements.filterMap (coerceNumber fd.kind) with
    | nil =>
      rw [hws] at hlen
      cases elements with
      | nil => simp at hne
      | cons x rest => simp at hlen
    | cons w ws =>
      refine ⟨.repeated (w :: ws), by simp [coerce, hrep, hws], ?_,
        fun _ => by simp [requiredSetValue]⟩
      intro w1 hw1
      cases w1 with
      | repeated ys =>
        simp only [FieldValue.sameAs] at hw1
        rw [← hws] at hw1
        rw [sameItems_scalar _ ys hscalar hw1]
        simp [projectValue, hu, hfixed, hmap, hkind, DynamicValue.sameAs]
      | _ => simp [FieldValue.sameAs] at hw1
  | .list items => fun fd rep h => by
    simp only [conforms, Bool.and_eq_true, Bool.not_eq_true', decide_eq_true_eq] at h
    obtain ⟨⟨⟨hrep, hplain⟩, hne⟩, hitems⟩ := h
    obtain ⟨hlen, hsame⟩ :=
      coerceItems_spec pool p u fd items (roundTripsAt_items pool p u hpool items) hitems
    cases hws : coerceItems pool p fd items with
    | nil =>
      rw [hws] at hlen
      cases items with
      | nil => simp at hne
      | cons x rest => simp at hlen
    | cons w ws =>
      refine ⟨.repeated (w :: ws), by simp [coerce, hrep, hws], ?_,
        fun _ => by simp [requiredSetValue]⟩
      intro w1 hw1
      cases w1 with
      | repeated ys =>
        simp only [FieldValue.sameAs] at hw1
        rw [← hws] at hw1
        simp only [projectValue, hplain, Bool.false_eq_true, if_false, DynamicValue.sameAs]
        exact hsame ys hw1
      | _ => simp [FieldValue.sameAs] at hw1
  | .mapping entries => fun fd rep h => by
    simp only [conforms, Bool.and_eq_true, Bool.not_eq_true', decide_eq_true_eq] at h
    obtain ⟨⟨hrep, hkind⟩, hT⟩ := h
    cases hlook : pool.lookup fd.type_name with
    | none => rw [hlook] at hT; simp at hT
    | some T =>
      rw [hlook] at hT
      simp only [Bool.and_eq_true, decide_eq_true_eq] at hT
      have hwf := wellFormed_of_lookup pool fd.type_name T hpool hlook
      obtain ⟨added, hwalk, hlen, hentries, hadded, hnodup, hrequired⟩ :=
        walkEntries_spec pool p u T hwf entries (roundTripsAt_entries pool p u hpool entries)
          hT.2 hT.1 [] (fun _ _ _ _ => by simp [fieldsPresent])
      rw [List.nil_append] at hwalk
      refine ⟨.message added [], by simp [coerce, hrep, hkind, hlook, hwalk], ?_, ?_⟩
      · intro w1 hw1
        cases w1 with
        | message gs unknown =>
          simp only [FieldValue.sameAs, Bool.and_eq_true, beq_iff_eq] at hw1
          simp only [projectValue, hlook, unknownEntry, Bool.false_and, Bool.false_eq_true,
            if_false, List.append_nil]
          exact mapping_sameAs_projectFields pool p u T hwf entries added gs hlen hentries
            hadded hnodup hw1.1 hw1.2
        | _ => simp [FieldValue.sameAs] at hw1
      · intro hreq
        simp only [hasRequired, hlook, Bool.and_eq_true] at hreq
        simp only [requiredSetValue, hlook, Bool.and_eq_true]
        exact ⟨requiredPresent_of_requiredKeys pool p u T hwf entries added hentries hreq.1,
          hrequired hreq.2⟩
/-- Every element of a list makes the round trip. -/
theorem roundTripsAt_items (pool : Registry) (p u : Bool)
    (hpool : Registry.wellFormed pool = true) :
    ∀ items : List DynamicValue, ∀ v ∈ items, RoundTripsAt pool p u v
  | [] => fun _ hv => by cases hv
  | x :: rest => fun v hv => by
    rcases List.mem_cons.mp hv with heq | hrest
    · rw [heq]
      exact roundTripsAt_value pool p u hpool x
    · exact roundTripsAt_items pool p u hpool rest v hrest
/-- The value of every entry of a mapping makes the round trip. -/
theorem roundTripsAt_entries (pool : Registry) (p u : Bool)
    (hpool : Registry.wellFormed pool = true) :
    ∀ entries : List (String × DynamicValue), ∀ e ∈ entries, RoundTripsAt pool p u e.2
  | [] => fun _ he => by cases he
  | (key, x) :: rest => fun e he => by
    rcases List.mem_cons.mp he with heq | hrest
    · rw [heq]
      exact roundTripsAt_value pool p u hpool x
    · exact roundTripsAt_entries pool p u hpool rest e hrest
end

end NodeProtobuf
